import Mathlib

/-!
# Verification of the MeetMap incremental idea-graph engine

This file embeds, in Lean 4, the core data model and operations of the
MeetMap transcript-to-graph pipeline: the per-tenant node store
(`GraphManager`, from `backend/services/graph_manager.py` as quoted in
`RAILWAY_SETTINGS_REVIEW.md`, `RAILWAY_DEPLOYMENT_TIMELINE.md` and the PRD),
the exhaustive similarity ranking (`find_globally_similar_nodes`), the
threshold-based streaming clustering (PRD Step 5B), the placement decision
fallbacks, and the frontend diff conversion, and proves or refutes the
specification's claims about them.

Embeddings are modelled by an abstract type `E`; the cosine-similarity
scorer `dot(a,b)/(‖a‖·‖b‖)` is treated as an opaque parameter
`sim : E → E → ℚ` (rationals standing for the float scores the code
computes), since every claim under verification is about the control flow
around the scores, not about the scoring formula itself.  Node ids are
modelled by an inductive type mirroring exactly the id strings the code
produces: `"root"`, `"root_{tenant}"`, and `"node_{counter}"`.
-/

namespace MeetMap

/-- Node identifiers as produced by the source: the global root `"root"`
(`NodeId.root none`), a per-tenant root `"root_{t}"` (`NodeId.root (some t)`),
and pipeline-generated ids `"node_{k}"` (`NodeId.node k`).  These string
shapes never collide, so the inductive type is a faithful model. -/
inductive NodeId where
  | root : Option String → NodeId
  | node : Nat → NodeId
deriving DecidableEq

/-- The global root id `self.root_id = "root"` fixed at `GraphManager`
construction (PRD §4.2). -/
def globalRootId : NodeId := NodeId.root none

/-- A graph node (`GraphNode` in the PRD §4.1): id, embedding, summary,
parent pointer, ordered children list, depth, and the metadata fields the
core interprets (`metadata["user_id"]`). -/
structure GraphNode (E : Type) where
  id : NodeId
  embedding : E
  summary : String
  parentId : Option NodeId
  childrenIds : List NodeId
  depth : Nat
  userId : Option String
deriving DecidableEq

/-- The in-memory store: `self.nodes` is a Python dict from id to node;
we model it as the list of its values in insertion order (Python dicts
preserve insertion order, and `values()` iterates in that order), plus the
service's node counter that generates fresh `node_{k}` ids. -/
structure GraphManager (E : Type) where
  nodes : List (GraphNode E)
  nodeCounter : Nat

/-- `self.nodes.get(node_id)`: lookup by id. -/
def getNode {E : Type} (gm : GraphManager E) (nid : NodeId) : Option (GraphNode E) :=
  gm.nodes.find? (fun n => n.id == nid)

/-- `get_all_nodes(user_id)` as quoted in `RAILWAY_SETTINGS_REVIEW.md`
lines 166-174 with the root clause as fixed in
`RAILWAY_DEPLOYMENT_TIMELINE.md` ("Root Node Connection Fix"):
with `user_id = None` it returns every stored node ("backward
compatible"); with a user it keeps nodes whose `metadata["user_id"]`
matches, plus the user-specific root `root_{user_id}`. -/
def getAllNodes {E : Type} (gm : GraphManager E) (userId : Option String) :
    List (GraphNode E) :=
  match userId with
  | none => gm.nodes
  | some u =>
      gm.nodes.filter (fun n => n.userId == some u || n.id == NodeId.root (some u))

/-- `get_all_nodes_except_root(user_id)` as quoted in
`RAILWAY_SETTINGS_REVIEW.md` lines 194-200: with no user it drops the node
whose id is the global `root_id`; with a user it keeps nodes with
`node.id != self.root_id and node.metadata.get("user_id") == user_id`.
Note that the only id compared against is the global `"root"`: a
per-tenant root `root_{u}` (which carries `user_id` in its metadata) is
not excluded by this filter. -/
def getAllNodesExceptRoot {E : Type} (gm : GraphManager E) (userId : Option String) :
    List (GraphNode E) :=
  match userId with
  | none => gm.nodes.filter (fun n => !(n.id == globalRootId))
  | some u =>
      gm.nodes.filter (fun n => !(n.id == globalRootId) && n.userId == some u)

/-- `get_root(user_id)` in its final, fixed form
(`RAILWAY_DEPLOYMENT_TIMELINE.md`, "Root Node Connection Fix"): the global
root for `None`, otherwise a direct `self.nodes.get` lookup of the id
`root_` followed by the user id. -/
def getRoot {E : Type} (gm : GraphManager E) (userId : Option String) :
    Option (GraphNode E) :=
  match userId with
  | none => getNode gm globalRootId
  | some u => getNode gm (NodeId.root (some u))

/-- Python dict assignment `self.nodes[key] = node`: replace in place if
the key exists, otherwise append at the end. -/
def storeNode {E : Type} (nodes : List (GraphNode E)) (n : GraphNode E) :
    List (GraphNode E) :=
  if nodes.any (fun m => m.id == n.id) then
    nodes.map (fun m => if m.id == n.id then n else m)
  else nodes ++ [n]

/-- The root node `_initialize_root(user_id)` builds
(`RAILWAY_SETTINGS_REVIEW.md` lines 250-260): id `root_{user_id}` (or
`"root"`), summary `"Meeting Start"`, no parent, depth 0, and `user_id`
stored in the root's metadata.  The root's embedding is not specified in
the source; it is passed in as `e0`. -/
def rootNodeOf {E : Type} (e0 : E) (userId : Option String) : GraphNode E :=
  { id := NodeId.root userId
    embedding := e0
    summary := "Meeting Start"
    parentId := none
    childrenIds := []
    depth := 0
    userId := userId }

def initializeRoot {E : Type} (gm : GraphManager E) (e0 : E) (userId : Option String) :
    GraphManager E :=
  { gm with nodes := storeNode gm.nodes (rootNodeOf e0 userId) }

/-- `add_node` (PRD Step 5A, `part_002` lines 320-350, and
`part_003` lines 344-360): validate that `parent_id` resolves to an
existing node (`ValueError` otherwise — note: no tenant check), set
`depth = parent.depth + 1`, store the node, and append `node_id` to the
parent's `children_ids`. -/
def addNode {E : Type} (gm : GraphManager E) (nodeId : NodeId) (e : E)
    (summary : String) (parentId : NodeId) (userId : Option String) :
    Except String (GraphManager E × GraphNode E) :=
  match getNode gm parentId with
  | none => Except.error "Parent does not exist"
  | some parent =>
      let node : GraphNode E :=
        { id := nodeId
          embedding := e
          summary := summary
          parentId := some parentId
          childrenIds := []
          depth := parent.depth + 1
          userId := userId }
      let nodes1 := storeNode gm.nodes node
      let nodes2 := nodes1.map (fun m =>
        if m.id == parentId then { m with childrenIds := m.childrenIds ++ [nodeId] } else m)
      Except.ok ({ gm with nodes := nodes2 }, node)

/-- The service-level insertion: ids are generated fresh from the running
counter (`node_{k}`, cf. the sequential `node_1`, `node_2`, … ids in
`part_003`), then `add_node` is called. -/
def insertNew {E : Type} (gm : GraphManager E) (e : E) (summary : String)
    (parentId : NodeId) (userId : Option String) :
    Except String (GraphManager E × GraphNode E) :=
  match addNode gm (NodeId.node gm.nodeCounter) e summary parentId userId with
  | Except.error msg => Except.error msg
  | Except.ok (gm1, n) => Except.ok ({ gm1 with nodeCounter := gm.nodeCounter + 1 }, n)

/-- The get-or-create pattern the service wraps around roots
(`RAILWAY_SETTINGS_REVIEW.md` §3C, `part_003` §3.4): query `get_root`,
call `_initialize_root` when it is missing, re-query, and fall back to the
global root id if even that fails (`user_root.id if user_root else
self.graph_manager.root_id`). -/
def getOrCreateRoot {E : Type} (gm : GraphManager E) (e0 : E) (userId : Option String) :
    NodeId × GraphManager E :=
  match getRoot gm userId with
  | some r => (r.id, gm)
  | none =>
      let gm1 := initializeRoot gm e0 userId
      match getRoot gm1 userId with
      | some r => (r.id, gm1)
      | none => (globalRootId, gm1)

/-! ## Similarity ranking (`find_globally_similar_nodes`, PRD Step 3)

The candidate collection is `get_all_nodes_except_root(user_id)` (quoted
source, above).  The selection itself is described by the PRD ("Sort by
similarity (descending); take top `K = min(5, available_nodes)`; no
threshold filtering") and by the spec ("ties broken by insertion order
(earlier node wins)"): a stable descending sort.  Sorting score-tagged
candidates by the total order "higher similarity first, earlier scan
index first on equal similarity" yields exactly the stable sort, and that
is how the sort is modelled here. -/

/-- The total order used to model the stable descending sort: higher
similarity first; on equal similarity, the candidate that was scanned
earlier (smaller index) first. -/
def rankRel (E : Type) : (ℕ × ℚ × GraphNode E) → (ℕ × ℚ × GraphNode E) → Prop :=
  fun a b => b.2.1 < a.2.1 ∨ (a.2.1 = b.2.1 ∧ a.1 ≤ b.1)

instance rankRelDecidable (E : Type) : DecidableRel (rankRel E) := by
  intro a b
  unfold rankRel
  infer_instance

instance rankRelTotal (E : Type) : IsTotal (ℕ × ℚ × GraphNode E) (rankRel E) := by
  constructor
  intro a b
  unfold rankRel
  rcases lt_trichotomy a.2.1 b.2.1 with h | h | h
  · exact Or.inr (Or.inl h)
  · rcases Nat.le_total a.1 b.1 with hi | hi
    · exact Or.inl (Or.inr ⟨h, hi⟩)
    · exact Or.inr (Or.inr ⟨h.symm, hi⟩)
  · exact Or.inl (Or.inl h)

instance rankRelTrans (E : Type) : IsTrans (ℕ × ℚ × GraphNode E) (rankRel E) := by
  constructor
  intro a b c hab hbc
  unfold rankRel at *
  rcases hab with h1 | ⟨h1, hi1⟩
  · rcases hbc with h2 | ⟨h2, _⟩
    · exact Or.inl (h2.trans h1)
    · exact Or.inl (h2 ▸ h1)
  · rcases hbc with h2 | ⟨h2, hi2⟩
    · exact Or.inl (h1 ▸ h2)
    · exact Or.inr ⟨h1.trans h2, hi1.trans hi2⟩

/-- Each candidate tagged with its scan index and its cosine-similarity
score against the query embedding (PRD Step 3, "Similarity Calculation:
for each existing node, `similarity = cosine_similarity(candidate_embedding,
node.embedding)`"). -/
def scoredCandidates {E : Type} (sim : E → E → ℚ) (c : E)
    (cands : List (GraphNode E)) : List (ℕ × ℚ × GraphNode E) :=
  cands.enum.map (fun p => (p.1, sim c p.2.embedding, p.2))

/-- Modelled from the spec: the sort/top-k body of
`find_globally_similar_nodes` is not quoted in the repository (only its
signature and candidate collection are); the PRD Step 3 prose "Sort by
similarity (descending); take top `K = min(5, available_nodes)`; no
threshold filtering" and the spec's tie rule "earlier node wins" determine
it up to the stable sort realised by `rankRel`. -/
def rankIndexed {E : Type} (sim : E → E → ℚ) (gm : GraphManager E) (c : E)
    (userId : Option String) : List (ℕ × ℚ × GraphNode E) :=
  (List.insertionSort (rankRel E)
    (scoredCandidates sim c (getAllNodesExceptRoot gm userId))).take 5

/-- `find_globally_similar_nodes` result format (PRD Step 3):
`(node_id, similarity_score, GraphNode)` triples. -/
def rank {E : Type} (sim : E → E → ℚ) (gm : GraphManager E) (c : E)
    (userId : Option String) : List (NodeId × ℚ × GraphNode E) :=
  (rankIndexed sim gm c userId).map (fun p => (p.2.2.id, p.2.1, p.2.2))

theorem mem_rankIndexed {E : Type} {sim : E → E → ℚ} {gm : GraphManager E} {c : E}
    {u : Option String} {p : ℕ × ℚ × GraphNode E} (hp : p ∈ rankIndexed sim gm c u) :
    p.2.2 ∈ getAllNodesExceptRoot gm u ∧ p.2.1 = sim c p.2.2.embedding := by
  have hsort : p ∈ List.insertionSort (rankRel E)
      (scoredCandidates sim c (getAllNodesExceptRoot gm u)) :=
    (List.take_sublist 5 _).mem hp
  have hmem : p ∈ scoredCandidates sim c (getAllNodesExceptRoot gm u) :=
    (List.mem_insertionSort (rankRel E)).mp hsort
  unfold scoredCandidates at hmem
  rcases List.mem_map.mp hmem with ⟨q, hq, hpq⟩
  have hqmem : q.2 ∈ getAllNodesExceptRoot gm u := by
    obtain ⟨i, a⟩ := q
    have h2 := List.mem_enum hq
    simp only [h2.2]
    exact List.getElem_mem h2.1
  subst hpq
  exact ⟨hqmem, rfl⟩

theorem scoredCandidates_length {E : Type} (sim : E → E → ℚ) (c : E)
    (l : List (GraphNode E)) : (scoredCandidates sim c l).length = l.length := by
  simp [scoredCandidates]

theorem scoredCandidates_pairwise_ne {E : Type} (sim : E → E → ℚ) (c : E)
    (l : List (GraphNode E)) :
    (scoredCandidates sim c l).Pairwise (fun a b => a.1 ≠ b.1) := by
  have h1 : ((scoredCandidates sim c l).map (fun p => p.1)).Nodup := by
    unfold scoredCandidates
    rw [List.map_map]
    have : ((fun p : ℕ × ℚ × GraphNode E => p.1) ∘
        (fun p : ℕ × GraphNode E => (p.1, sim c p.2.embedding, p.2)))
        = fun p : ℕ × GraphNode E => p.1 := rfl
    rw [this]
    have := List.enum_map_fst l
    rw [show (fun p : ℕ × GraphNode E => p.1) = Prod.fst from rfl, this]
    exact List.nodup_range _
  have h2 := (List.pairwise_map).mp h1
  exact h2

theorem sorted_pairwise_ne {E : Type} (sim : E → E → ℚ) (c : E)
    (l : List (GraphNode E)) :
    (List.insertionSort (rankRel E) (scoredCandidates sim c l)).Pairwise
      (fun a b => a.1 ≠ b.1) := by
  have hperm := List.perm_insertionSort (rankRel E) (scoredCandidates sim c l)
  exact (hperm.pairwise_iff (fun h => Ne.symm h)).mpr
    (scoredCandidates_pairwise_ne sim c l)

/-- C2 (amended).  For every scorer, query embedding, store state and
tenant scope: `rank` scores every element of the tenant-scoped candidate
set `get_all_nodes_except_root(tenant)` (a set that, by the defect
recorded at C7, contains the tenant's own root when one exists), and
returns exactly the top `min 5 (number of candidates)` of them ordered by
similarity descending with ties broken in favor of the earlier-scanned
(earlier-inserted) candidate; no similarity threshold is applied, repeated
calls return the identical list, and when the candidate count is at most 5
the whole candidate set is returned, ordered. -/
theorem rank_topk_spec {E : Type} (sim : E → E → ℚ) (gm : GraphManager E) (c : E)
    (u : Option String) :
    (rank sim gm c u).length = min 5 (getAllNodesExceptRoot gm u).length
    ∧ (List.insertionSort (rankRel E)
        (scoredCandidates sim c (getAllNodesExceptRoot gm u))).Perm
        (scoredCandidates sim c (getAllNodesExceptRoot gm u))
    ∧ (∀ p ∈ rankIndexed sim gm c u,
        p.2.2 ∈ getAllNodesExceptRoot gm u ∧ p.2.1 = sim c p.2.2.embedding)
    ∧ rank sim gm c u = (rankIndexed sim gm c u).map (fun p => (p.2.2.id, p.2.1, p.2.2))
    ∧ (rankIndexed sim gm c u).Pairwise
        (fun a b => b.2.1 < a.2.1 ∨ (a.2.1 = b.2.1 ∧ a.1 < b.1))
    ∧ rank sim gm c u = rank sim gm c u
    ∧ ((getAllNodesExceptRoot gm u).length ≤ 5 →
        (rankIndexed sim gm c u).Perm
          (scoredCandidates sim c (getAllNodesExceptRoot gm u))) := by
  have hperm := List.perm_insertionSort (rankRel E)
    (scoredCandidates sim c (getAllNodesExceptRoot gm u))
  refine ⟨?_, hperm, ?_, rfl, ?_, rfl, ?_⟩
  · unfold rank rankIndexed
    rw [List.length_map, List.length_take, hperm.length_eq,
      scoredCandidates_length]
  · intro p hp
    exact mem_rankIndexed hp
  · have hsorted : (List.insertionSort (rankRel E)
        (scoredCandidates sim c (getAllNodesExceptRoot gm u))).Pairwise (rankRel E) :=
      List.sorted_insertionSort (rankRel E) _
    have hne := sorted_pairwise_ne sim c (getAllNodesExceptRoot gm u)
    have hboth := hsorted.and hne
    have htake : (rankIndexed sim gm c u).Pairwise
        (fun a b => rankRel E a b ∧ a.1 ≠ b.1) :=
      hboth.sublist (List.take_sublist 5 _)
    refine htake.imp ?_
    intro a b hab
    rcases hab with ⟨hr | ⟨heq, hle⟩, hne2⟩
    · exact Or.inl hr
    · exact Or.inr ⟨heq, lt_of_le_of_ne hle hne2⟩
  · intro hlen
    unfold rankIndexed
    rw [List.take_of_length_le (by rw [hperm.length_eq, scoredCandidates_length]; exact hlen)]
    exact hperm

/-! ## Tenant isolation of the read paths -/

/-- Every root node stored under a root id carries that root's tenant tag
in its metadata — `_initialize_root` always stores `user_id` in the root's
metadata, so this holds in every state the code can produce. -/
def WellTagged {E : Type} (gm : GraphManager E) : Prop :=
  ∀ n ∈ gm.nodes, ∀ t : Option String, n.id = NodeId.root t → n.userId = t

/-- C1 (amended).  For tenants `t1 ≠ t2`: `rank` scoped to `t1` only
returns nodes tagged `t1` (so never a `t2` node), `get_all_nodes(t1)`
only returns nodes tagged `t1`, and `get_all_nodes` with no tenant returns
the entire store unfiltered (the backward-compatible branch `return
list(self.nodes.values())`), hence all tenants' nodes, not only the
global/unscoped ones. -/
theorem tenant_isolation_read_paths {E : Type} (sim : E → E → ℚ) (gm : GraphManager E)
    (c : E) (t1 t2 : String) (hne : t1 ≠ t2) (hwt : WellTagged gm) :
    (∀ p ∈ rank sim gm c (some t1),
        p.2.2.userId = some t1 ∧ p.2.2.userId ≠ some t2)
    ∧ (∀ n ∈ getAllNodes gm (some t1), n.userId = some t1 ∧ n.userId ≠ some t2)
    ∧ getAllNodes gm none = gm.nodes := by
  have hInj : (some t1 : Option String) ≠ some t2 := by
    intro h
    exact hne (Option.some.inj h)
  refine ⟨?_, ?_, rfl⟩
  · intro p hp
    unfold rank at hp
    rcases List.mem_map.mp hp with ⟨q, hq, hpq⟩
    have hm := (mem_rankIndexed hq).1
    unfold getAllNodesExceptRoot at hm
    have hpred := (List.mem_filter.mp hm).2
    have huid : q.2.2.userId = some t1 := by
      simp only [Bool.and_eq_true, beq_iff_eq] at hpred
      exact hpred.2
    subst hpq
    exact ⟨huid, by rw [huid]; exact hInj⟩
  · intro n hn
    unfold getAllNodes at hn
    have hmem := (List.mem_filter.mp hn).1
    have hpred := (List.mem_filter.mp hn).2
    have huid : n.userId = some t1 := by
      simp only [Bool.or_eq_true, beq_iff_eq] at hpred
      rcases hpred with h | h
      · exact h
      · exact hwt n hmem (some t1) h
    exact ⟨huid, by rw [huid]; exact hInj⟩

/-! ## Concrete states for counterexamples and witnesses -/

/-- A concrete scorer on rational "embeddings" (witnesses only; the
theorems hold for every scorer, cosine similarity included). -/
def qsim : ℚ → ℚ → ℚ := fun a b => a * b

/-- A concrete root node for tenant scope `t`, as `_initialize_root`
creates it: depth 0, no parent, tenant tag stored in metadata. -/
def rootNodeQ (t : Option String) : GraphNode ℚ :=
  { id := NodeId.root t
    embedding := 0
    summary := "Meeting Start"
    parentId := none
    childrenIds := []
    depth := 0
    userId := t }

/-- State after the constructor created the global root and tenant `t1`
sent its first chunk (creating `root_t1`), before any idea node exists. -/
def gmTwoRoots : GraphManager ℚ :=
  { nodes := [rootNodeQ none, rootNodeQ (some "t1")], nodeCounter := 0 }

/-- A concrete idea node of tenant `t1`, child of `t1`'s root. -/
def ideaNodeT1 : GraphNode ℚ :=
  { id := NodeId.node 0
    embedding := 1
    summary := "idea"
    parentId := some (NodeId.root (some "t1"))
    childrenIds := []
    depth := 1
    userId := some "t1" }

/-- State with the global root, tenant `t1`'s root, and one `t1` idea
node. -/
def gmTenantNode : GraphManager ℚ :=
  { nodes := [rootNodeQ none, rootNodeQ (some "t1"), ideaNodeT1]
    nodeCounter := 1 }

theorem gmTenantNode_wellTagged : WellTagged gmTenantNode := by
  intro n hn t ht
  fin_cases hn <;> simp_all [gmTenantNode, rootNodeQ, ideaNodeT1]

/-- C1 counterexample: in a state holding a node of tenant `t1`,
`get_all_nodes` called with no tenant returns that tenant node — the
no-tenant read is the whole store, not a global/unscoped set. -/
theorem getAllNodes_none_returns_tenant_nodes :
    (getAllNodes gmTenantNode none).any (fun n => n.userId == some "t1") = true
    ∧ getAllNodes gmTenantNode none = gmTenantNode.nodes := by
  exact ⟨by decide, rfl⟩

/-- C1 witness: the isolation theorem applied to a concrete state. -/
theorem tenant_isolation_read_paths_witness :
    getAllNodes gmTenantNode none = gmTenantNode.nodes :=
  (tenant_isolation_read_paths qsim gmTenantNode 1 "t1" "t2" (by decide)
    gmTenantNode_wellTagged).2.2

/-- Predicate: `n` is a non-root node belonging to tenant `t`. -/
def isNonRootNodeOf {E : Type} (t : String) (n : GraphNode E) : Bool :=
  (match n.id with
    | NodeId.node _ => true
    | NodeId.root _ => false) && n.userId == some t

/-- C2 counterexample: tenant `t1` has `n = 0` non-root nodes, yet `rank`
scoped to `t1` returns 1 pair (the tenant's own root, which the candidate
filter fails to exclude), not `min 5 0 = 0` pairs as the claim states. -/
theorem rank_length_ne_min_nonroot_count :
    (gmTwoRoots.nodes.filter (isNonRootNodeOf "t1")).length = 0
    ∧ (rank qsim gmTwoRoots 1 (some "t1")).length = 1
    ∧ (rank qsim gmTwoRoots 1 (some "t1")).length
        ≠ min 5 (gmTwoRoots.nodes.filter (isNonRootNodeOf "t1")).length := by
  refine ⟨by decide, by decide, by decide⟩

/-- C2 witness: the top-k theorem applied to a concrete state. -/
theorem rank_topk_spec_witness :
    (rank qsim gmTwoRoots 1 (some "t1")).length
      = min 5 (getAllNodesExceptRoot gmTwoRoots (some "t1")).length :=
  (rank_topk_spec qsim gmTwoRoots 1 (some "t1")).1

/-- C7: evaluation of the code at the failing state.  Tenant `t1`'s own
root node `root_t1` (which `_initialize_root` tagged with
`metadata["user_id"] = "t1"`) passes the candidate filter of
`get_all_nodes_except_root("t1")` — the filter compares ids only against
the global `"root"` — and is therefore compared and returned by the
similarity search, although the same method's docstring ("Get all nodes
except root (for global search)") and PRD Step 3 ("Excludes root node
(placeholder)") say roots are excluded. -/
theorem tenant_root_in_similarity_candidates :
    (getAllNodesExceptRoot gmTwoRoots (some "t1")).map (fun n => n.id)
      = [NodeId.root (some "t1")]
    ∧ (rank qsim gmTwoRoots 1 (some "t1")).map (fun p => p.1)
      = [NodeId.root (some "t1")] := by
  refine ⟨by decide, by decide⟩

/-! ## Threshold-based streaming clustering (PRD Step 5B)

Per-tenant clustering state (PRD §4.2: `cluster_centroids`,
`cluster_members`, `next_cluster_id`; clusters are per-tenant,
`part_003` "Clustering: per-user").  The Python dicts are modelled as
association lists in insertion order; since cluster ids are handed out in
increasing order and clusters are never deleted, iteration order is
ascending cluster id.  Centroid arithmetic is exact (`ℚ`-module), which
settles the "within floating-point tolerance" comparison exactly. -/

structure ClusterState (E : Type) where
  centroids : List (Nat × E)
  members : List (Nat × List NodeId)
  nextClusterId : Nat

def emptyClusterState (E : Type) : ClusterState E :=
  { centroids := [], members := [], nextClusterId := 0 }

def alistLookup {α : Type} (l : List (Nat × α)) (k : Nat) : Option α :=
  (l.find? (fun p => p.1 == k)).map (fun p => p.2)

def alistUpdate {α : Type} (l : List (Nat × α)) (k : Nat) (f : α → α) :
    List (Nat × α) :=
  l.map (fun p => if p.1 == k then (p.1, f p.2) else p)

/-- `CLUSTER_SIMILARITY_THRESHOLD = 0.65` (PRD §8.1). -/
def clusterThreshold : ℚ := 65 / 100

/-- The best-cluster loop of PRD Step 5B: iterate over the centroids in
dict order keeping the strictly greater similarity
(`if similarity > best_similarity`), so the first maximum encountered —
the lowest cluster id, iteration being in ascending-id order — wins
ties. -/
def bestAux {E : Type} (sim : E → E → ℚ) (e : E) (b : Nat × ℚ) :
    List (Nat × E) → Nat × ℚ
  | [] => b
  | p :: rest =>
      if b.2 < sim e p.2 then bestAux sim e (p.1, sim e p.2) rest
      else bestAux sim e b rest

def bestCluster {E : Type} (sim : E → E → ℚ) (e : E) :
    List (Nat × E) → Option (Nat × ℚ)
  | [] => none
  | p :: rest => some (bestAux sim e (p.1, sim e p.2) rest)

/-- `_update_centroid` (PRD Step 5, "Centroid Update"):
`new_centroid = (old * (n - 1) + new_embedding) / n` where `n` is the
member count after adding the node. -/
def runningAvg {E : Type} [AddCommGroup E] [Module ℚ E] (old : E) (n : Nat)
    (e : E) : E :=
  ((n : ℚ))⁻¹ • (((n : ℚ) - 1) • old + e)

/-- Creation of a fresh cluster (PRD Step 5B else-branch):
`cluster_centroids[next] = embedding.copy(); cluster_members[next] =
[node_id]; next_cluster_id += 1`. -/
def createCluster {E : Type} (st : ClusterState E) (nid : NodeId) (e : E) :
    Nat × ClusterState E :=
  (st.nextClusterId,
    { centroids := st.centroids ++ [(st.nextClusterId, e)]
      members := st.members ++ [(st.nextClusterId, [nid])]
      nextClusterId := st.nextClusterId + 1 })

/-- Cluster assignment (PRD Step 5B): find the best centroid; join it when
`best_similarity >= CLUSTER_SIMILARITY_THRESHOLD` (appending to its
membership and updating its centroid by the running average with `n` the
new member count), otherwise create a fresh cluster.  With no clusters at
all the loop finds nothing and the fresh-cluster route is taken
("If no clusters exist → Create cluster 0"). -/
def assignCluster {E : Type} [AddCommGroup E] [Module ℚ E] (sim : E → E → ℚ)
    (st : ClusterState E) (nid : NodeId) (e : E) : Nat × ClusterState E :=
  match bestCluster sim e st.centroids with
  | none => createCluster st nid e
  | some (b, bs) =>
      if clusterThreshold ≤ bs then
        let members1 := alistUpdate st.members b (fun l => l ++ [nid])
        let n := ((alistLookup members1 b).getD []).length
        (b, { st with
              members := members1
              centroids := alistUpdate st.centroids b (fun old => runningAvg old n e) })
      else createCluster st nid e

/-- Running a whole history of assignments, threading the state. -/
def runAssign {E : Type} [AddCommGroup E] [Module ℚ E] (sim : E → E → ℚ)
    (st : ClusterState E) : List (NodeId × E) → ClusterState E
  | [] => st
  | p :: rest => runAssign sim (assignCluster sim st p.1 p.2).2 rest

/-- The embeddings of exactly those history entries that the run assigned
to cluster `c`. -/
def embsOf {E : Type} [AddCommGroup E] [Module ℚ E] (sim : E → E → ℚ)
    (st : ClusterState E) (c : Nat) : List (NodeId × E) → List E
  | [] => []
  | p :: rest =>
      if (assignCluster sim st p.1 p.2).1 = c then
        p.2 :: embsOf sim (assignCluster sim st p.1 p.2).2 c rest
      else embsOf sim (assignCluster sim st p.1 p.2).2 c rest

/-- The node ids of exactly those history entries that the run assigned to
cluster `c`. -/
def idsOf {E : Type} [AddCommGroup E] [Module ℚ E] (sim : E → E → ℚ)
    (st : ClusterState E) (c : Nat) : List (NodeId × E) → List NodeId
  | [] => []
  | p :: rest =>
      if (assignCluster sim st p.1 p.2).1 = c then
        p.1 :: idsOf sim (assignCluster sim st p.1 p.2).2 c rest
      else idsOf sim (assignCluster sim st p.1 p.2).2 c rest

/-- The specification's from-scratch recomputation of a centroid: the
arithmetic mean of the member embeddings ("the centroid equals the
arithmetic mean of those n embeddings — verifiable by recomputing from
scratch"). -/
def specCentroid {E : Type} [AddCommGroup E] [Module ℚ E] (embs : List E) : E :=
  ((embs.length : ℚ))⁻¹ • embs.sum

/-- Well-formedness of a cluster state, established by every reachable
state: centroid keys strictly ascending (dict insertion order = creation
order), all keys below `next_cluster_id`, and the member table keyed
identically to the centroid table. -/
def ClusterWF {E : Type} (st : ClusterState E) : Prop :=
  st.centroids.Pairwise (fun p q => p.1 < q.1)
  ∧ (∀ p ∈ st.centroids, p.1 < st.nextClusterId)
  ∧ st.members.map (fun p => p.1) = st.centroids.map (fun p => p.1)

theorem alistLookup_cons {α : Type} (a : Nat × α) (l : List (Nat × α)) (k : Nat) :
    alistLookup (a :: l) k = if a.1 = k then some a.2 else alistLookup l k := by
  unfold alistLookup
  by_cases h : a.1 = k
  · rw [List.find?_cons_of_pos _ (by simp [h]), if_pos h]
    rfl
  · rw [List.find?_cons_of_neg _ (by simp [h]), if_neg h]

theorem alistUpdate_cons {α : Type} (a : Nat × α) (l : List (Nat × α)) (k : Nat)
    (f : α → α) :
    alistUpdate (a :: l) k f
      = (if a.1 = k then (a.1, f a.2) else a) :: alistUpdate l k f := by
  unfold alistUpdate
  by_cases h : a.1 = k <;> simp [h]

theorem alistLookup_update_self {α : Type} (l : List (Nat × α)) (k : Nat) (f : α → α) :
    alistLookup (alistUpdate l k f) k = (alistLookup l k).map f := by
  induction l with
  | nil => rfl
  | cons a l ih =>
      rw [alistUpdate_cons]
      by_cases h : a.1 = k
      · rw [if_pos h, alistLookup_cons, alistLookup_cons, if_pos h, if_pos h]
        rfl
      · rw [if_neg h, alistLookup_cons, alistLookup_cons, if_neg h, if_neg h]
        exact ih

theorem alistLookup_update_other {α : Type} (l : List (Nat × α)) (k k' : Nat)
    (f : α → α) (h : k' ≠ k) :
    alistLookup (alistUpdate l k f) k' = alistLookup l k' := by
  induction l with
  | nil => rfl
  | cons a l ih =>
      rw [alistUpdate_cons]
      by_cases ha : a.1 = k
      · have ha' : a.1 ≠ k' := by rw [ha]; exact fun hh => h hh.symm
        rw [if_pos ha, alistLookup_cons, alistLookup_cons, if_neg ha', if_neg ha']
        exact ih
      · rw [if_neg ha, alistLookup_cons, alistLookup_cons]
        by_cases hb : a.1 = k'
        · rw [if_pos hb, if_pos hb]
        · rw [if_neg hb, if_neg hb]
          exact ih

theorem alistLookup_append_fresh {α : Type} (l : List (Nat × α)) (k : Nat) (x : α)
    (h : ∀ p ∈ l, p.1 ≠ k) :
    alistLookup (l ++ [(k, x)]) k = some x := by
  induction l with
  | nil => simp [alistLookup]
  | cons a l ih =>
      rw [List.cons_append, alistLookup_cons,
        if_neg (h a (List.mem_cons_self a l))]
      exact ih (fun p hp => h p (List.mem_cons_of_mem a hp))

theorem alistLookup_append_other {α : Type} (l : List (Nat × α)) (k c : Nat) (x : α)
    (h : c ≠ k) :
    alistLookup (l ++ [(k, x)]) c = alistLookup l c := by
  induction l with
  | nil =>
      rw [List.nil_append, alistLookup_cons, if_neg (fun hh => h hh.symm)]
  | cons a l ih =>
      rw [List.cons_append, alistLookup_cons, alistLookup_cons]
      by_cases hb : a.1 = c
      · rw [if_pos hb, if_pos hb]
      · rw [if_neg hb, if_neg hb]
        exact ih

theorem alistUpdate_keys {α : Type} (l : List (Nat × α)) (k : Nat) (f : α → α) :
    (alistUpdate l k f).map (fun p => p.1) = l.map (fun p => p.1) := by
  induction l with
  | nil => rfl
  | cons a l ih =>
      rw [alistUpdate_cons]
      by_cases h : a.1 = k
      · rw [if_pos h]
        simpa using ih
      · rw [if_neg h]
        simpa using ih

theorem alistLookup_eq_none_iff {α : Type} (l : List (Nat × α)) (k : Nat) :
    alistLookup l k = none ↔ ∀ p ∈ l, p.1 ≠ k := by
  unfold alistLookup
  rw [Option.map_eq_none', List.find?_eq_none]
  constructor
  · intro h p hp
    simpa using h p hp
  · intro h p hp
    simpa using h p hp

theorem bestAux_spec {E : Type} (sim : E → E → ℚ) (e : E) (l : List (Nat × E)) :
    ∀ b : Nat × ℚ,
      (bestAux sim e b l = b
        ∨ ∃ p ∈ l, bestAux sim e b l = (p.1, sim e p.2) ∧ b.2 < sim e p.2)
      ∧ b.2 ≤ (bestAux sim e b l).2
      ∧ (∀ p ∈ l, sim e p.2 ≤ (bestAux sim e b l).2) := by
  induction l with
  | nil =>
      intro b
      exact ⟨Or.inl rfl, le_refl _, fun p hp => absurd hp (List.not_mem_nil p)⟩
  | cons a rest ih =>
      intro b
      by_cases h : b.2 < sim e a.2
      · have hbeq : bestAux sim e b (a :: rest) = bestAux sim e (a.1, sim e a.2) rest := by
          simp [bestAux, h]
        obtain ⟨ih1, ih2, ih3⟩ := ih (a.1, sim e a.2)
        refine ⟨?_, ?_, ?_⟩
        · rcases ih1 with h1 | ⟨p, hp, h1, h2⟩
          · exact Or.inr ⟨a, List.mem_cons_self a rest, by rw [hbeq, h1], h⟩
          · exact Or.inr ⟨p, List.mem_cons_of_mem a hp, by rw [hbeq]; exact h1,
              lt_trans h h2⟩
        · rw [hbeq]
          exact le_of_lt (lt_of_lt_of_le h ih2)
        · intro p hp
          rcases List.mem_cons.mp hp with rfl | hp2
          · rw [hbeq]
            exact ih2
          · rw [hbeq]
            exact ih3 p hp2
      · have hbeq : bestAux sim e b (a :: rest) = bestAux sim e b rest := by
          simp [bestAux, h]
        obtain ⟨ih1, ih2, ih3⟩ := ih b
        refine ⟨?_, ?_, ?_⟩
        · rcases ih1 with h1 | ⟨p, hp, h1, h2⟩
          · exact Or.inl (by rw [hbeq]; exact h1)
          · exact Or.inr ⟨p, List.mem_cons_of_mem a hp, by rw [hbeq]; exact h1, h2⟩
        · rw [hbeq]
          exact ih2
        · intro p hp
          rcases List.mem_cons.mp hp with rfl | hp2
          · rw [hbeq]
            exact le_trans (not_lt.mp h) ih2
          · rw [hbeq]
            exact ih3 p hp2

theorem bestAux_tie {E : Type} (sim : E → E → ℚ) (e : E) (l : List (Nat × E)) :
    ∀ b : Nat × ℚ, (∀ p ∈ l, b.1 < p.1) → l.Pairwise (fun p q => p.1 < q.1) →
      ∀ p ∈ l, sim e p.2 = (bestAux sim e b l).2 → (bestAux sim e b l).1 ≤ p.1 := by
  induction l with
  | nil =>
      intro b _ _ p hp
      cases hp
  | cons a rest ih =>
      intro b hb hsorted p hp heq
      have hbrest : ∀ q ∈ rest, a.1 < q.1 :=
        fun q hq => (List.pairwise_cons.mp hsorted).1 q hq
      have hsorted2 := (List.pairwise_cons.mp hsorted).2
      by_cases h : b.2 < sim e a.2
      · have hbeq : bestAux sim e b (a :: rest) = bestAux sim e (a.1, sim e a.2) rest := by
          simp [bestAux, h]
        rcases List.mem_cons.mp hp with rfl | hp2
        · rw [hbeq] at heq ⊢
          obtain ⟨h1, _, _⟩ := bestAux_spec sim e rest (p.1, sim e p.2)
          rcases h1 with h1 | ⟨q, _, h1, hlt⟩
          · rw [h1]
          · rw [h1] at heq
            exact absurd heq (ne_of_lt hlt)
        · rw [hbeq] at heq ⊢
          exact ih (a.1, sim e a.2) hbrest hsorted2 p hp2 heq
      · have hbeq : bestAux sim e b (a :: rest) = bestAux sim e b rest := by
          simp [bestAux, h]
        rcases List.mem_cons.mp hp with rfl | hp2
        · rw [hbeq] at heq ⊢
          obtain ⟨h1, _, _⟩ := bestAux_spec sim e rest b
          rcases h1 with h1 | ⟨q, _, h1, hlt⟩
          · rw [h1]
            exact le_of_lt (hb p (List.mem_cons_self p rest))
          · rw [h1] at heq
            exact absurd (heq ▸ hlt) h
        · rw [hbeq] at heq ⊢
          exact ih b (fun q hq => hb q (List.mem_cons_of_mem a hq)) hsorted2 p hp2 heq

theorem bestCluster_spec {E : Type} (sim : E → E → ℚ) (e : E) (cs : List (Nat × E))
    (hsorted : cs.Pairwise (fun p q => p.1 < q.1)) (b : Nat) (bs : ℚ)
    (hbc : bestCluster sim e cs = some (b, bs)) :
    (∃ p ∈ cs, b = p.1 ∧ bs = sim e p.2)
    ∧ (∀ p ∈ cs, sim e p.2 ≤ bs)
    ∧ (∀ p ∈ cs, sim e p.2 = bs → b ≤ p.1) := by
  cases cs with
  | nil => cases hbc
  | cons a rest =>
      have hbc2 : bestAux sim e (a.1, sim e a.2) rest = (b, bs) := by
        simpa [bestCluster] using hbc
      obtain ⟨h1, h2, h3⟩ := bestAux_spec sim e rest (a.1, sim e a.2)
      have hbrest : ∀ q ∈ rest, a.1 < q.1 :=
        fun q hq => (List.pairwise_cons.mp hsorted).1 q hq
      have htie := bestAux_tie sim e rest (a.1, sim e a.2) hbrest
        (List.pairwise_cons.mp hsorted).2
      refine ⟨?_, ?_, ?_⟩
      · rcases h1 with h1 | ⟨p, hp, h1, _⟩
        · have hba := hbc2.symm.trans h1
          obtain ⟨hb1, hb2⟩ := Prod.ext_iff.mp hba
          exact ⟨a, List.mem_cons_self a rest, hb1, hb2⟩
        · have hbp := hbc2.symm.trans h1
          obtain ⟨hb1, hb2⟩ := Prod.ext_iff.mp hbp
          exact ⟨p, List.mem_cons_of_mem a hp, hb1, hb2⟩
      · intro p hp
        rcases List.mem_cons.mp hp with rfl | hp2
        · have := h2
          rw [hbc2] at this
          exact this
        · have := h3 p hp2
          rw [hbc2] at this
          exact this
      · intro p hp heq
        rcases List.mem_cons.mp hp with rfl | hp2
        · rcases h1 with h1 | ⟨q, _, h1, hlt⟩
          · have hba := hbc2.symm.trans h1
            obtain ⟨hb1, _⟩ := Prod.ext_iff.mp hba
            exact le_of_eq hb1
          · have hbp := hbc2.symm.trans h1
            obtain ⟨_, hb2⟩ := Prod.ext_iff.mp hbp
            have hb2' : bs = sim e q.2 := hb2
            rw [hb2'] at heq
            exact absurd heq (ne_of_lt hlt)
        · have := htie p hp2 (by rw [hbc2]; exact heq)
          rw [hbc2] at this
          exact this

/-- C3.  One `assign(node_id, embedding, tenant)` call on a well-formed
per-tenant state: from the empty state (no clusters) a cluster `0` with
centroid equal to the embedding and the node as single member is created;
otherwise the best centroid by similarity is chosen, ties going to the
lowest cluster id, the node joins it exactly when the best similarity
reaches the `0.65` threshold (membership appended, centroid updated by
the running average over the new member count, no new cluster id used),
and otherwise a fresh cluster with id `next_cluster_id` is created with
centroid equal to the embedding and the node as single member,
`next_cluster_id` being incremented. -/
theorem assignCluster_spec {E : Type} [AddCommGroup E] [Module ℚ E]
    (sim : E → E → ℚ) (st : ClusterState E) (nid : NodeId) (e : E)
    (hwf : ClusterWF st) :
    (st.centroids = [] → st.nextClusterId = 0 →
      assignCluster sim st nid e
        = (0, { centroids := [(0, e)]
                members := st.members ++ [(0, [nid])]
                nextClusterId := 1 }))
    ∧ (∀ b bs, bestCluster sim e st.centroids = some (b, bs) →
        (∃ p ∈ st.centroids, b = p.1 ∧ bs = sim e p.2)
        ∧ (∀ p ∈ st.centroids, sim e p.2 ≤ bs)
        ∧ (∀ p ∈ st.centroids, sim e p.2 = bs → b ≤ p.1)
        ∧ (clusterThreshold ≤ bs →
            (assignCluster sim st nid e).1 = b
            ∧ (assignCluster sim st nid e).2.nextClusterId = st.nextClusterId
            ∧ alistLookup (assignCluster sim st nid e).2.members b
                = some ((alistLookup st.members b).getD [] ++ [nid])
            ∧ (∀ old, alistLookup st.centroids b = some old →
                alistLookup (assignCluster sim st nid e).2.centroids b
                  = some (runningAvg old
                      ((alistLookup st.members b).getD [] ++ [nid]).length e)))
        ∧ (bs < clusterThreshold →
            (assignCluster sim st nid e).1 = st.nextClusterId
            ∧ (∀ p ∈ st.centroids, p.1 ≠ st.nextClusterId)
            ∧ alistLookup (assignCluster sim st nid e).2.centroids
                st.nextClusterId = some e
            ∧ alistLookup (assignCluster sim st nid e).2.members
                st.nextClusterId = some [nid]
            ∧ (assignCluster sim st nid e).2.nextClusterId
                = st.nextClusterId + 1)) := by
  constructor
  · intro h0 hn0
    simp [assignCluster, bestCluster, createCluster, h0, hn0]
  · intro b bs hbc
    obtain ⟨hex, hmax, htie⟩ := bestCluster_spec sim e st.centroids hwf.1 b bs hbc
    have hfreshc : ∀ p ∈ st.centroids, p.1 ≠ st.nextClusterId :=
      fun p hp => ne_of_lt (hwf.2.1 p hp)
    have hfreshm : ∀ p ∈ st.members, p.1 ≠ st.nextClusterId := by
      intro p hp
      have hk : p.1 ∈ st.centroids.map (fun q => q.1) := by
        rw [← hwf.2.2]
        exact List.mem_map_of_mem _ hp
      rcases List.mem_map.mp hk with ⟨q, hq, hq1⟩
      rw [← hq1]
      exact ne_of_lt (hwf.2.1 q hq)
    refine ⟨hex, hmax, htie, ?_, ?_⟩
    · intro hth
      have hassign : assignCluster sim st nid e
          = (b, { st with
                  members := alistUpdate st.members b (fun l => l ++ [nid])
                  centroids := alistUpdate st.centroids b (fun old =>
                    runningAvg old
                      ((alistLookup (alistUpdate st.members b
                        (fun l => l ++ [nid])) b).getD []).length e) }) := by
        simp only [assignCluster, hbc]
        rw [if_pos hth]
      obtain ⟨p, hp, hb1, _⟩ := hex
      have hbkeys : b ∈ st.members.map (fun q => q.1) := by
        rw [hwf.2.2]
        exact List.mem_map.mpr ⟨p, hp, hb1.symm⟩
      have hml : ∃ l, alistLookup st.members b = some l := by
        cases hml2 : alistLookup st.members b with
        | none =>
            rcases List.mem_map.mp hbkeys with ⟨q, hq, hq1⟩
            exact absurd hq1 ((alistLookup_eq_none_iff st.members b).mp hml2 q hq)
        | some l => exact ⟨l, rfl⟩
      obtain ⟨ml, hml⟩ := hml
      refine ⟨by rw [hassign], by rw [hassign], ?_, ?_⟩
      · have hm2 : (assignCluster sim st nid e).2.members
            = alistUpdate st.members b (fun l => l ++ [nid]) := by
          rw [hassign]
        rw [hm2, alistLookup_update_self, hml]
        rfl
      · intro old hold
        have hc2 : (assignCluster sim st nid e).2.centroids
            = alistUpdate st.centroids b (fun old2 =>
                runningAvg old2 ((alistLookup (alistUpdate st.members b
                  (fun l => l ++ [nid])) b).getD []).length e) := by
          rw [hassign]
        rw [hc2, alistLookup_update_self, hold, alistLookup_update_self, hml]
        rfl
    · intro hlt
      have hassign : assignCluster sim st nid e = createCluster st nid e := by
        simp only [assignCluster, hbc]
        rw [if_neg (not_le.mpr hlt)]
      refine ⟨by rw [hassign]; rfl, hfreshc, ?_, ?_, by rw [hassign]; rfl⟩
      · rw [hassign]
        exact alistLookup_append_fresh st.centroids _ e hfreshc
      · rw [hassign]
        exact alistLookup_append_fresh st.members _ [nid] hfreshm

/-- A concrete two-cluster state for the C3 witness. -/
def clusterStExample : ClusterState ℚ :=
  { centroids := [(0, 1), (1, 2)]
    members := [(0, [NodeId.node 0]), (1, [NodeId.node 1])]
    nextClusterId := 2 }

theorem clusterStExample_wf : ClusterWF clusterStExample := by
  refine ⟨?_, ?_, rfl⟩
  · decide
  · decide

/-- C3 witness: on the concrete state, the best cluster is `1` (similarity
`2 ≥ 0.65`) and the node joins it. -/
theorem assignCluster_spec_witness :
    (assignCluster qsim clusterStExample (NodeId.node 2) 1).1 = 1 :=
  ((((assignCluster_spec qsim clusterStExample (NodeId.node 2) 1
      clusterStExample_wf).2 1 2
      (by norm_num [bestCluster, bestAux, qsim, clusterStExample])).2.2.2.1)
      (by norm_num [clusterThreshold])).1

instance listEqNilDecidable {α : Type} (l : List α) : Decidable (l = []) :=
  match l with
  | [] => Decidable.isTrue rfl
  | _ :: _ => Decidable.isFalse (fun h => List.noConfusion h)

theorem specCentroid_singleton {E : Type} [AddCommGroup E] [Module ℚ E] (e : E) :
    specCentroid [e] = e := by
  simp [specCentroid]

/-- The running-average update applied to the mean of `l` with the new
member count `l.length + 1` yields the mean of `l ++ [e]`: the incremental
centroid refines the from-scratch mean. -/
theorem runningAvg_mean {E : Type} [AddCommGroup E] [Module ℚ E] (l : List E) (e : E)
    (hl : l ≠ []) :
    runningAvg (specCentroid l) (l.length + 1) e = specCentroid (l ++ [e]) := by
  unfold runningAvg specCentroid
  have hn : ((l.length : ℚ)) ≠ 0 := by
    have hpos := List.length_pos.mpr hl
    exact_mod_cast Nat.pos_iff_ne_zero.mp hpos
  rw [List.length_append, List.sum_append]
  push_cast
  rw [show ((l.length : ℚ) + 1 - 1) = (l.length : ℚ) by ring]
  rw [smul_inv_smul₀ hn]
  simp

theorem alistUpdate_pairwise {α : Type} (l : List (Nat × α)) (k : Nat) (f : α → α)
    (h : l.Pairwise (fun p q => p.1 < q.1)) :
    (alistUpdate l k f).Pairwise (fun p q => p.1 < q.1) := by
  unfold alistUpdate
  rw [List.pairwise_map]
  refine h.imp ?_
  intro a b hab
  by_cases ha : a.1 == k <;> by_cases hb : b.1 == k <;> simp [ha, hb, hab]

theorem alistUpdate_mem_fst {α : Type} {l : List (Nat × α)} {k : Nat} {f : α → α}
    {p : Nat × α} (hp : p ∈ alistUpdate l k f) : p.1 ∈ l.map (fun q => q.1) := by
  rw [← alistUpdate_keys l k f]
  exact List.mem_map_of_mem _ hp

theorem bestCluster_eq_none {E : Type} (sim : E → E → ℚ) (e : E)
    (cs : List (Nat × E)) : bestCluster sim e cs = none ↔ cs = [] := by
  cases cs <;> simp [bestCluster]

theorem createCluster_wf {E : Type} (st : ClusterState E) (nid : NodeId) (e : E)
    (hwf : ClusterWF st) : ClusterWF (createCluster st nid e).2 := by
  obtain ⟨h1, h2, h3⟩ := hwf
  refine ⟨?_, ?_, ?_⟩
  · show (st.centroids ++ [(st.nextClusterId, e)]).Pairwise _
    rw [List.pairwise_append]
    refine ⟨h1, List.pairwise_singleton _ _, ?_⟩
    intro a ha b hb
    rw [List.mem_singleton.mp hb]
    exact h2 a ha
  · intro p hp
    rcases List.mem_append.mp hp with hp2 | hp2
    · exact lt_trans (h2 p hp2) (Nat.lt_succ_self _)
    · rw [List.mem_singleton.mp hp2]
      exact Nat.lt_succ_self _
  · show (st.members ++ [(st.nextClusterId, [nid])]).map _
        = (st.centroids ++ [(st.nextClusterId, e)]).map _
    rw [List.map_append, List.map_append, h3]
    rfl

theorem assignCluster_wf {E : Type} [AddCommGroup E] [Module ℚ E] (sim : E → E → ℚ)
    (st : ClusterState E) (nid : NodeId) (e : E) (hwf : ClusterWF st) :
    ClusterWF (assignCluster sim st nid e).2 := by
  cases hbc : bestCluster sim e st.centroids with
  | none =>
      have hassign : assignCluster sim st nid e = createCluster st nid e := by
        simp only [assignCluster, hbc]
      rw [hassign]
      exact createCluster_wf st nid e hwf
  | some r =>
      obtain ⟨b, bs⟩ := r
      by_cases hth : clusterThreshold ≤ bs
      · have hassign : assignCluster sim st nid e
            = (b, { st with
                    members := alistUpdate st.members b (fun l => l ++ [nid])
                    centroids := alistUpdate st.centroids b (fun old =>
                      runningAvg old
                        ((alistLookup (alistUpdate st.members b
                          (fun l => l ++ [nid])) b).getD []).length e) }) := by
          simp only [assignCluster, hbc]
          rw [if_pos hth]
        obtain ⟨h1, h2, h3⟩ := hwf
        have hc : (assignCluster sim st nid e).2.centroids
            = alistUpdate st.centroids b (fun old =>
                runningAvg old
                  ((alistLookup (alistUpdate st.members b
                    (fun l => l ++ [nid])) b).getD []).length e) := by
          rw [hassign]
        have hm : (assignCluster sim st nid e).2.members
            = alistUpdate st.members b (fun l => l ++ [nid]) := by
          rw [hassign]
        have hnx : (assignCluster sim st nid e).2.nextClusterId
            = st.nextClusterId := by
          rw [hassign]
        refine ⟨?_, ?_, ?_⟩
        · rw [hc]
          exact alistUpdate_pairwise _ _ _ h1
        · intro p hp
          rw [hc] at hp
          rw [hnx]
          rcases List.mem_map.mp (alistUpdate_mem_fst hp) with ⟨q, hq, hq1⟩
          rw [← hq1]
          exact h2 q hq
        · rw [hm, hc, alistUpdate_keys, alistUpdate_keys, h3]
      · have hassign : assignCluster sim st nid e = createCluster st nid e := by
          simp only [assignCluster, hbc]
          rw [if_neg hth]
        rw [hassign]
        exact createCluster_wf st nid e hwf

theorem idsOf_length_eq_embsOf {E : Type} [AddCommGroup E] [Module ℚ E]
    (sim : E → E → ℚ) (c : Nat) :
    ∀ (hist : List (NodeId × E)) (st : ClusterState E),
      (idsOf sim st c hist).length = (embsOf sim st c hist).length := by
  intro hist
  induction hist with
  | nil => intro st; rfl
  | cons p rest ih =>
      intro st
      by_cases h : (assignCluster sim st p.1 p.2).1 = c
      · simp [idsOf, embsOf, h, ih]
      · simp [idsOf, embsOf, h, ih]

theorem createCluster_ghost {E : Type} [AddCommGroup E] [Module ℚ E]
    (st : ClusterState E) (nid : NodeId) (e : E)
    (g : Nat → List E) (gi : Nat → List NodeId) (hwf : ClusterWF st)
    (hg : ∀ c, alistLookup st.centroids c
        = if g c = [] then none else some (specCentroid (g c)))
    (hgi : ∀ c, alistLookup st.members c
        = if gi c = [] then none else some (gi c)) :
    (∀ c, alistLookup (createCluster st nid e).2.centroids c
        = if (if (createCluster st nid e).1 = c then g c ++ [e] else g c) = []
          then none
          else some (specCentroid
            (if (createCluster st nid e).1 = c then g c ++ [e] else g c)))
    ∧ (∀ c, alistLookup (createCluster st nid e).2.members c
        = if (if (createCluster st nid e).1 = c then gi c ++ [nid] else gi c) = []
          then none
          else some
            (if (createCluster st nid e).1 = c then gi c ++ [nid] else gi c)) := by
  have hfreshc : ∀ p ∈ st.centroids, p.1 ≠ st.nextClusterId :=
    fun p hp => ne_of_lt (hwf.2.1 p hp)
  have hfreshm : ∀ p ∈ st.members, p.1 ≠ st.nextClusterId := by
    intro p hp
    have hk : p.1 ∈ st.centroids.map (fun q => q.1) := by
      rw [← hwf.2.2]
      exact List.mem_map_of_mem _ hp
    rcases List.mem_map.mp hk with ⟨q, hq, hq1⟩
    rw [← hq1]
    exact ne_of_lt (hwf.2.1 q hq)
  have hgnext : g st.nextClusterId = [] := by
    have hnone : alistLookup st.centroids st.nextClusterId = none :=
      (alistLookup_eq_none_iff _ _).mpr hfreshc
    rw [hg st.nextClusterId] at hnone
    by_cases h : g st.nextClusterId = []
    · exact h
    · rw [if_neg h] at hnone
      cases hnone
  have hginext : gi st.nextClusterId = [] := by
    have hnone : alistLookup st.members st.nextClusterId = none :=
      (alistLookup_eq_none_iff _ _).mpr hfreshm
    rw [hgi st.nextClusterId] at hnone
    by_cases h : gi st.nextClusterId = []
    · exact h
    · rw [if_neg h] at hnone
      cases hnone
  have ha : (createCluster st nid e).1 = st.nextClusterId := rfl
  have hcen : (createCluster st nid e).2.centroids
      = st.centroids ++ [(st.nextClusterId, e)] := rfl
  have hmem : (createCluster st nid e).2.members
      = st.members ++ [(st.nextClusterId, [nid])] := rfl
  constructor
  · intro c
    rw [hcen, ha]
    by_cases hac : st.nextClusterId = c
    · subst hac
      rw [if_pos rfl,
        alistLookup_append_fresh _ _ _ hfreshc, hgnext]
      rw [if_neg (by simp)]
      rw [List.nil_append, specCentroid_singleton]
    · rw [if_neg hac,
        alistLookup_append_other _ _ _ _ (fun hh => hac hh.symm), hg c]
  · intro c
    rw [hmem, ha]
    by_cases hac : st.nextClusterId = c
    · subst hac
      rw [if_pos rfl,
        alistLookup_append_fresh _ _ _ hfreshm, hginext]
      rw [if_neg (by simp)]
      rw [List.nil_append]
    · rw [if_neg hac,
        alistLookup_append_other _ _ _ _ (fun hh => hac hh.symm), hgi c]

theorem assignCluster_ghost_step {E : Type} [AddCommGroup E] [Module ℚ E]
    (sim : E → E → ℚ) (st : ClusterState E) (nid : NodeId) (e : E)
    (g : Nat → List E) (gi : Nat → List NodeId) (hwf : ClusterWF st)
    (hg : ∀ c, alistLookup st.centroids c
        = if g c = [] then none else some (specCentroid (g c)))
    (hgi : ∀ c, alistLookup st.members c
        = if gi c = [] then none else some (gi c))
    (hlen : ∀ c, (gi c).length = (g c).length) :
    (∀ c, alistLookup (assignCluster sim st nid e).2.centroids c
        = if (if (assignCluster sim st nid e).1 = c then g c ++ [e] else g c) = []
          then none
          else some (specCentroid
            (if (assignCluster sim st nid e).1 = c then g c ++ [e] else g c)))
    ∧ (∀ c, alistLookup (assignCluster sim st nid e).2.members c
        = if (if (assignCluster sim st nid e).1 = c then gi c ++ [nid] else gi c) = []
          then none
          else some
            (if (assignCluster sim st nid e).1 = c then gi c ++ [nid] else gi c))
    ∧ (∀ c, (if (assignCluster sim st nid e).1 = c then gi c ++ [nid] else gi c).length
        = (if (assignCluster sim st nid e).1 = c then g c ++ [e] else g c).length) := by
  have hlen2 : ∀ c, (if (assignCluster sim st nid e).1 = c then gi c ++ [nid] else gi c).length
      = (if (assignCluster sim st nid e).1 = c then g c ++ [e] else g c).length := by
    intro c
    by_cases hac : (assignCluster sim st nid e).1 = c <;> simp [hac, hlen c]
  cases hbc : bestCluster sim e st.centroids with
  | none =>
      have hassign : assignCluster sim st nid e = createCluster st nid e := by
        simp only [assignCluster, hbc]
      rw [hassign] at hlen2 ⊢
      obtain ⟨hx, hy⟩ := createCluster_ghost st nid e g gi hwf hg hgi
      exact ⟨hx, hy, hlen2⟩
  | some r =>
      obtain ⟨b, bs⟩ := r
      by_cases hth : clusterThreshold ≤ bs
      · obtain ⟨hex, hmax, htie⟩ := bestCluster_spec sim e st.centroids hwf.1 b bs hbc
        have hassign : assignCluster sim st nid e
            = (b, { st with
                    members := alistUpdate st.members b (fun l => l ++ [nid])
                    centroids := alistUpdate st.centroids b (fun old =>
                      runningAvg old
                        ((alistLookup (alistUpdate st.members b
                          (fun l => l ++ [nid])) b).getD []).length e) }) := by
          simp only [assignCluster, hbc]
          rw [if_pos hth]
        have ha : (assignCluster sim st nid e).1 = b := by
          rw [hassign]
        have hcen : (assignCluster sim st nid e).2.centroids
            = alistUpdate st.centroids b (fun old =>
                runningAvg old
                  ((alistLookup (alistUpdate st.members b
                    (fun l => l ++ [nid])) b).getD []).length e) := by
          rw [hassign]
        have hmem : (assignCluster sim st nid e).2.members
            = alistUpdate st.members b (fun l => l ++ [nid]) := by
          rw [hassign]
        obtain ⟨p, hp, hb1, _⟩ := hex
        have hgb : g b ≠ [] := by
          intro hnil
          have hnone : alistLookup st.centroids b = none := by
            rw [hg b, if_pos hnil]
          exact ((alistLookup_eq_none_iff _ _).mp hnone p hp) hb1.symm
        have hbkeys : b ∈ st.members.map (fun q => q.1) := by
          rw [hwf.2.2]
          exact List.mem_map.mpr ⟨p, hp, hb1.symm⟩
        have hgib : gi b ≠ [] := by
          intro hnil
          have hnone : alistLookup st.members b = none := by
            rw [hgi b, if_pos hnil]
          rcases List.mem_map.mp hbkeys with ⟨q, hq, hq1⟩
          exact ((alistLookup_eq_none_iff _ _).mp hnone q hq) hq1
        have hlkc : alistLookup st.centroids b = some (specCentroid (g b)) := by
          rw [hg b, if_neg hgb]
        have hlkm : alistLookup st.members b = some (gi b) := by
          rw [hgi b, if_neg hgib]
        refine ⟨?_, ?_, hlen2⟩
        · intro c
          rw [hcen, ha]
          by_cases hac : b = c
          · subst hac
            rw [if_pos rfl, alistLookup_update_self, hlkc,
              alistLookup_update_self, hlkm]
            simp only [Option.map_some', Option.getD_some, List.length_append,
              List.length_cons, List.length_nil]
            rw [hlen b]
            rw [if_neg (by simp)]
            rw [show (g b).length + (0 + 1) = (g b).length + 1 by ring]
            rw [runningAvg_mean (g b) e hgb]
          · rw [if_neg hac,
              alistLookup_update_other _ _ _ _ (fun hh => hac hh.symm), hg c]
        · intro c
          rw [hmem, ha]
          by_cases hac : b = c
          · subst hac
            rw [if_pos rfl, alistLookup_update_self, hlkm]
            rw [if_neg (by simp)]
            rfl
          · rw [if_neg hac,
              alistLookup_update_other _ _ _ _ (fun hh => hac hh.symm), hgi c]
      · have hassign : assignCluster sim st nid e = createCluster st nid e := by
          simp only [assignCluster, hbc]
          rw [if_neg hth]
        rw [hassign] at hlen2 ⊢
        obtain ⟨hx, hy⟩ := createCluster_ghost st nid e g gi hwf hg hgi
        exact ⟨hx, hy, hlen2⟩

theorem runAssign_ghost {E : Type} [AddCommGroup E] [Module ℚ E] (sim : E → E → ℚ) :
    ∀ (hist : List (NodeId × E)) (st : ClusterState E)
      (g : Nat → List E) (gi : Nat → List NodeId),
      ClusterWF st →
      (∀ c, alistLookup st.centroids c
          = if g c = [] then none else some (specCentroid (g c))) →
      (∀ c, alistLookup st.members c = if gi c = [] then none else some (gi c)) →
      (∀ c, (gi c).length = (g c).length) →
      (∀ c, alistLookup (runAssign sim st hist).centroids c
          = if g c ++ embsOf sim st c hist = [] then none
            else some (specCentroid (g c ++ embsOf sim st c hist)))
      ∧ (∀ c, alistLookup (runAssign sim st hist).members c
          = if gi c ++ idsOf sim st c hist = [] then none
            else some (gi c ++ idsOf sim st c hist)) := by
  intro hist
  induction hist with
  | nil =>
      intro st g gi hwf hg hgi hlen
      constructor
      · intro c
        simpa [runAssign, embsOf] using hg c
      · intro c
        simpa [runAssign, idsOf] using hgi c
  | cons p rest ih =>
      intro st g gi hwf hg hgi hlen
      obtain ⟨hsc, hsm, hslen⟩ :=
        assignCluster_ghost_step sim st p.1 p.2 g gi hwf hg hgi hlen
      have hwf2 := assignCluster_wf sim st p.1 p.2 hwf
      obtain ⟨key1, key2⟩ := ih (assignCluster sim st p.1 p.2).2
        (fun c => if (assignCluster sim st p.1 p.2).1 = c then g c ++ [p.2] else g c)
        (fun c => if (assignCluster sim st p.1 p.2).1 = c then gi c ++ [p.1] else gi c)
        hwf2 hsc hsm hslen
      have hrun : runAssign sim st (p :: rest)
          = runAssign sim (assignCluster sim st p.1 p.2).2 rest := rfl
      constructor
      · intro c
        have hk := key1 c
        by_cases hac : (assignCluster sim st p.1 p.2).1 = c
        · rw [if_pos hac] at hk
          have hemb : embsOf sim st c (p :: rest)
              = p.2 :: embsOf sim (assignCluster sim st p.1 p.2).2 c rest := by
            simp only [embsOf]
            rw [if_pos hac]
          have happ : g c ++ embsOf sim st c (p :: rest)
              = (g c ++ [p.2]) ++ embsOf sim (assignCluster sim st p.1 p.2).2 c rest := by
            rw [hemb, List.append_assoc, List.singleton_append]
          rw [hrun, happ]
          exact hk
        · rw [if_neg hac] at hk
          have hemb : embsOf sim st c (p :: rest)
              = embsOf sim (assignCluster sim st p.1 p.2).2 c rest := by
            simp only [embsOf]
            rw [if_neg hac]
          rw [hrun, hemb]
          exact hk
      · intro c
        have hk := key2 c
        by_cases hac : (assignCluster sim st p.1 p.2).1 = c
        · rw [if_pos hac] at hk
          have hids : idsOf sim st c (p :: rest)
              = p.1 :: idsOf sim (assignCluster sim st p.1 p.2).2 c rest := by
            simp only [idsOf]
            rw [if_pos hac]
          have happ : gi c ++ idsOf sim st c (p :: rest)
              = (gi c ++ [p.1]) ++ idsOf sim (assignCluster sim st p.1 p.2).2 c rest := by
            rw [hids, List.append_assoc, List.singleton_append]
          rw [hrun, happ]
          exact hk
        · rw [if_neg hac] at hk
          have hids : idsOf sim st c (p :: rest)
              = idsOf sim (assignCluster sim st p.1 p.2).2 c rest := by
            simp only [idsOf]
            rw [if_neg hac]
          rw [hrun, hids]
          exact hk

/-- C4.  Running the clustering engine from the empty per-tenant state
over any history of `assign` calls: for every cluster `c`, the
incrementally maintained running-average centroid stored for `c` equals
the from-scratch arithmetic mean (`specCentroid`) of exactly the
embeddings of the nodes that were assigned to `c`, and the stored
membership list is exactly those nodes, in order.  Arithmetic is exact
(rationals), so the "within floating-point tolerance" equality holds as a
true equality. -/
theorem centroid_is_running_mean {E : Type} [AddCommGroup E] [Module ℚ E]
    (sim : E → E → ℚ) (hist : List (NodeId × E)) (c : Nat) :
    alistLookup (runAssign sim (emptyClusterState E) hist).centroids c
      = (if embsOf sim (emptyClusterState E) c hist = [] then none
         else some (specCentroid (embsOf sim (emptyClusterState E) c hist)))
    ∧ alistLookup (runAssign sim (emptyClusterState E) hist).members c
      = (if idsOf sim (emptyClusterState E) c hist = [] then none
         else some (idsOf sim (emptyClusterState E) c hist))
    ∧ (idsOf sim (emptyClusterState E) c hist).length
      = (embsOf sim (emptyClusterState E) c hist).length := by
  have hwf : ClusterWF (emptyClusterState E) := by
    refine ⟨List.Pairwise.nil, ?_, rfl⟩
    intro p hp
    cases hp
  obtain ⟨k1, k2⟩ := runAssign_ghost sim hist (emptyClusterState E)
    (fun _ => []) (fun _ => []) hwf (fun _ => rfl) (fun _ => rfl) (fun _ => rfl)
  refine ⟨?_, ?_, idsOf_length_eq_embsOf sim c hist (emptyClusterState E)⟩
  · simpa using k1 c
  · simpa using k2 c

/-! ## Reachable graph states and the tree invariant

The GraphManager constructor creates the global root; afterwards the
store is mutated only by root get-or-create and by the service-level
insertion (`add_node` with a fresh `node_{counter}` id).  A failed
insertion (`ValueError: Parent does not exist`) raises before any
mutation, so it contributes no step. -/

/-- The state right after `GraphManager.__init__` (which calls
`_initialize_root()` for the global root). -/
def initialGM {E : Type} (e0 : E) : GraphManager E :=
  { nodes := [{ id := globalRootId
                embedding := e0
                summary := "Meeting Start"
                parentId := none
                childrenIds := []
                depth := 0
                userId := none }]
    nodeCounter := 0 }

/-- One store mutation. -/
inductive GraphStep {E : Type} : GraphManager E → GraphManager E → Prop where
  | ensureRoot (gm : GraphManager E) (e0 : E) (u : Option String) :
      GraphStep gm (getOrCreateRoot gm e0 u).2
  | insert (gm gm2 : GraphManager E) (e : E) (s : String) (pid : NodeId)
      (u : Option String) (n : GraphNode E)
      (hok : insertNew gm e s pid u = Except.ok (gm2, n)) :
      GraphStep gm gm2

def Reachable {E : Type} (e0 : E) (gm : GraphManager E) : Prop :=
  Relation.ReflTransGen GraphStep (initialGM e0) gm

/-- The store invariant: globally unique ids; every child link matched by
a unique entry in the parent's ordered children list with the depth
bookkeeping right; children resolve; `node_{k}` ids stay below the
counter; root nodes are parentless, at depth 0, and tagged with their
tenant. -/
def GraphInv {E : Type} (gm : GraphManager E) : Prop :=
  (gm.nodes.map (fun n => n.id)).Nodup
  ∧ (∀ n ∈ gm.nodes, ∀ p, n.parentId = some p →
      ∃ par ∈ gm.nodes, par.id = p ∧ n.depth = par.depth + 1
        ∧ par.childrenIds.count n.id = 1)
  ∧ (∀ n ∈ gm.nodes, ∀ c ∈ n.childrenIds, ∃ m ∈ gm.nodes, m.id = c)
  ∧ (∀ n ∈ gm.nodes, ∀ k, n.id = NodeId.node k → k < gm.nodeCounter)
  ∧ (∀ n ∈ gm.nodes, ∀ t, n.id = NodeId.root t →
      n.parentId = none ∧ n.depth = 0 ∧ n.userId = t)

theorem getRoot_eq_getNode {E : Type} (gm : GraphManager E) (u : Option String) :
    getRoot gm u = getNode gm (NodeId.root u) := by
  cases u <;> rfl

theorem getNode_some {E : Type} {gm : GraphManager E} {nid : NodeId}
    {n : GraphNode E} (h : getNode gm nid = some n) :
    n ∈ gm.nodes ∧ n.id = nid := by
  unfold getNode at h
  refine ⟨List.mem_of_find?_eq_some h, ?_⟩
  have hp := List.find?_some h
  simpa using hp

theorem getNode_none {E : Type} {gm : GraphManager E} {nid : NodeId}
    (h : getNode gm nid = none) : ∀ n ∈ gm.nodes, n.id ≠ nid := by
  unfold getNode at h
  intro n hn
  have hp := List.find?_eq_none.mp h n hn
  simpa using hp

theorem storeNode_fresh {E : Type} (nodes : List (GraphNode E)) (n : GraphNode E)
    (h : ∀ m ∈ nodes, m.id ≠ n.id) : storeNode nodes n = nodes ++ [n] := by
  unfold storeNode
  rw [if_neg]
  intro hc
  rcases List.any_eq_true.mp hc with ⟨x, hx, hpx⟩
  exact h x hx (by simpa using hpx)

theorem find?_id_append_self {E : Type} (nodes : List (GraphNode E))
    (n : GraphNode E) (h : ∀ m ∈ nodes, m.id ≠ n.id) :
    (nodes ++ [n]).find? (fun m => m.id == n.id) = some n := by
  induction nodes with
  | nil => simp
  | cons a l ih =>
      rw [List.cons_append,
        List.find?_cons_of_neg _ (by simpa using h a (List.mem_cons_self a l))]
      exact ih (fun m hm => h m (List.mem_cons_of_mem a hm))

theorem getOrCreateRoot_cases {E : Type} (gm : GraphManager E) (e0 : E)
    (u : Option String) :
    (∃ r, getRoot gm u = some r ∧ getOrCreateRoot gm e0 u = (r.id, gm))
    ∨ (getRoot gm u = none
        ∧ getOrCreateRoot gm e0 u
          = (NodeId.root u, { gm with nodes := gm.nodes ++ [rootNodeOf e0 u] })) := by
  cases hr : getRoot gm u with
  | some r =>
      refine Or.inl ⟨r, rfl, ?_⟩
      simp only [getOrCreateRoot, hr]
  | none =>
      have hfresh : ∀ m ∈ gm.nodes, m.id ≠ NodeId.root u := by
        have hgn := getRoot_eq_getNode gm u
        rw [hgn] at hr
        exact getNode_none hr
      have hstore : initializeRoot gm e0 u
          = { gm with nodes := gm.nodes ++ [rootNodeOf e0 u] } := by
        unfold initializeRoot
        rw [storeNode_fresh _ _ hfresh]
      have hfind : getRoot { gm with nodes := gm.nodes ++ [rootNodeOf e0 u] } u
          = some (rootNodeOf e0 u) := by
        rw [getRoot_eq_getNode]
        exact find?_id_append_self gm.nodes (rootNodeOf e0 u)
          (fun m hm => hfresh m hm)
      refine Or.inr ⟨rfl, ?_⟩
      simp only [getOrCreateRoot, hr, hstore, hfind]
      rfl

theorem graphInv_ensureRoot {E : Type} (gm : GraphManager E) (e0 : E)
    (u : Option String) (hinv : GraphInv gm) :
    GraphInv (getOrCreateRoot gm e0 u).2 := by
  rcases getOrCreateRoot_cases gm e0 u with ⟨r, _, heq⟩ | ⟨hr, heq⟩
  · rw [heq]
    exact hinv
  · rw [heq]
    obtain ⟨h1, h2, h3, h4, h5⟩ := hinv
    have hfresh : ∀ m ∈ gm.nodes, m.id ≠ NodeId.root u := by
      have hgn := getRoot_eq_getNode gm u
      rw [hgn] at hr
      exact getNode_none hr
    refine ⟨?_, ?_, ?_, ?_, ?_⟩
    · show ((gm.nodes ++ [rootNodeOf e0 u]).map (fun n => n.id)).Nodup
      rw [List.map_append]
      rw [List.nodup_append]
      refine ⟨h1, List.nodup_singleton _, ?_⟩
      intro x hx
      rcases List.mem_map.mp hx with ⟨m, hm, hmx⟩
      intro hx2
      have hxr : x = NodeId.root u := by
        simpa [rootNodeOf] using hx2
      exact hfresh m hm (hmx.trans hxr)
    · intro n hn p hp
      rcases List.mem_append.mp hn with hn2 | hn2
      · obtain ⟨par, hparm, hid, hd, hc⟩ := h2 n hn2 p hp
        exact ⟨par, List.mem_append_left _ hparm, hid, hd, hc⟩
      · have hn3 := List.mem_singleton.mp hn2
        subst hn3
        simp [rootNodeOf] at hp
    · intro n hn c hc
      rcases List.mem_append.mp hn with hn2 | hn2
      · obtain ⟨m, hm, hmid⟩ := h3 n hn2 c hc
        exact ⟨m, List.mem_append_left _ hm, hmid⟩
      · have hn3 := List.mem_singleton.mp hn2
        subst hn3
        simp [rootNodeOf] at hc
    · intro n hn k hk
      rcases List.mem_append.mp hn with hn2 | hn2
      · exact h4 n hn2 k hk
      · have hn3 := List.mem_singleton.mp hn2
        subst hn3
        simp [rootNodeOf] at hk
    · intro n hn t ht
      rcases List.mem_append.mp hn with hn2 | hn2
      · exact h5 n hn2 t ht
      · have hn3 := List.mem_singleton.mp hn2
        subst hn3
        have hut : u = t := by
          simpa [rootNodeOf] using ht
        subst hut
        exact ⟨rfl, rfl, rfl⟩

theorem updNode_id {E : Type} (pid cid : NodeId) (m : GraphNode E) :
    (if m.id == pid
     then { m with childrenIds := m.childrenIds ++ [cid] } else m).id = m.id := by
  by_cases h : m.id == pid <;> simp [h]

theorem updNode_parentId {E : Type} (pid cid : NodeId) (m : GraphNode E) :
    (if m.id == pid
     then { m with childrenIds := m.childrenIds ++ [cid] } else m).parentId
      = m.parentId := by
  by_cases h : m.id == pid <;> simp [h]

theorem updNode_depth {E : Type} (pid cid : NodeId) (m : GraphNode E) :
    (if m.id == pid
     then { m with childrenIds := m.childrenIds ++ [cid] } else m).depth
      = m.depth := by
  by_cases h : m.id == pid <;> simp [h]

theorem updNode_userId {E : Type} (pid cid : NodeId) (m : GraphNode E) :
    (if m.id == pid
     then { m with childrenIds := m.childrenIds ++ [cid] } else m).userId
      = m.userId := by
  by_cases h : m.id == pid <;> simp [h]

theorem updNode_children {E : Type} (pid cid : NodeId) (m : GraphNode E) :
    (if m.id == pid
     then { m with childrenIds := m.childrenIds ++ [cid] } else m).childrenIds
      = if m.id = pid then m.childrenIds ++ [cid] else m.childrenIds := by
  by_cases h : m.id = pid <;> simp [h]

theorem insertNew_ok_elim {E : Type} {gm gm2 : GraphManager E} {e : E} {s : String}
    {pid : NodeId} {u : Option String} {n : GraphNode E}
    (hok : insertNew gm e s pid u = Except.ok (gm2, n)) :
    ∃ parent, getNode gm pid = some parent
      ∧ n = { id := NodeId.node gm.nodeCounter
              embedding := e
              summary := s
              parentId := some pid
              childrenIds := []
              depth := parent.depth + 1
              userId := u }
      ∧ gm2 = { nodes := (storeNode gm.nodes
                  { id := NodeId.node gm.nodeCounter
                    embedding := e
                    summary := s
                    parentId := some pid
                    childrenIds := []
                    depth := parent.depth + 1
                    userId := u }).map (fun m =>
                      if m.id == pid
                      then { m with childrenIds :=
                              m.childrenIds ++ [NodeId.node gm.nodeCounter] }
                      else m)
                nodeCounter := gm.nodeCounter + 1 } := by
  cases hpar : getNode gm pid with
  | none =>
      have hred : insertNew gm e s pid u = Except.error "Parent does not exist" := by
        unfold insertNew addNode
        rw [hpar]
      rw [hred] at hok
      cases hok
  | some parent =>
      have hred : insertNew gm e s pid u
          = Except.ok
              ({ nodes := (storeNode gm.nodes
                    { id := NodeId.node gm.nodeCounter
                      embedding := e
                      summary := s
                      parentId := some pid
                      childrenIds := []
                      depth := parent.depth + 1
                      userId := u }).map (fun m =>
                        if m.id == pid
                        then { m with childrenIds :=
                                m.childrenIds ++ [NodeId.node gm.nodeCounter] }
                        else m)
                 nodeCounter := gm.nodeCounter + 1 },
               { id := NodeId.node gm.nodeCounter
                 embedding := e
                 summary := s
                 parentId := some pid
                 childrenIds := []
                 depth := parent.depth + 1
                 userId := u }) := by
        unfold insertNew addNode
        rw [hpar]
      rw [hred] at hok
      have hpair := Except.ok.inj hok
      exact ⟨parent, rfl, (Prod.ext_iff.mp hpair).2.symm, (Prod.ext_iff.mp hpair).1.symm⟩

theorem graphInv_insert {E : Type} {gm gm2 : GraphManager E} {e : E} {s : String}
    {pid : NodeId} {u : Option String} {n : GraphNode E}
    (hok : insertNew gm e s pid u = Except.ok (gm2, n)) (hinv : GraphInv gm) :
    GraphInv gm2 := by
  obtain ⟨h1, h2, h3, h4, h5⟩ := hinv
  obtain ⟨parent, hpar, hn, hgm2⟩ := insertNew_ok_elim hok
  obtain ⟨hparmem, hparid⟩ := getNode_some hpar
  have hfresh : ∀ m ∈ gm.nodes, m.id ≠ NodeId.node gm.nodeCounter := by
    intro m hm heq
    exact lt_irrefl _ (h4 m hm gm.nodeCounter heq)
  have hpidne : NodeId.node gm.nodeCounter ≠ pid := by
    rw [← hparid]
    exact fun h => hfresh parent hparmem h.symm
  have hnid : n.id = NodeId.node gm.nodeCounter := by rw [hn]
  have hnpar : n.parentId = some pid := by rw [hn]
  have hnch : n.childrenIds = [] := by rw [hn]
  have hnd : n.depth = parent.depth + 1 := by rw [hn]
  rw [← hn] at hgm2
  subst hgm2
  have hstore : storeNode gm.nodes n = gm.nodes ++ [n] :=
    storeNode_fresh _ _ (fun m hm => by rw [hnid]; exact hfresh m hm)
  rw [hstore]
  have hbeqfalse : (n.id == pid) = false := by
    rw [hnid]
    exact beq_eq_false_iff_ne.mpr hpidne
  have hfn : (if (n.id == pid) = true
      then { n with childrenIds := n.childrenIds ++ [NodeId.node gm.nodeCounter] }
      else n) = n := by
    simp only [hbeqfalse, Bool.false_eq_true, if_false]
  have hids : (((gm.nodes ++ [n]).map (fun m : GraphNode E => if m.id == pid
      then { m with childrenIds := m.childrenIds ++ [NodeId.node gm.nodeCounter] }
      else m)).map (fun m : GraphNode E => m.id))
      = gm.nodes.map (fun m : GraphNode E => m.id)
        ++ [NodeId.node gm.nodeCounter] := by
    rw [List.map_map, List.map_append]
    congr 1
    · apply List.map_congr_left
      intro m _
      exact updNode_id pid _ m
    · simp only [List.map_cons, List.map_nil, Function.comp_apply]
      rw [hfn, hnid]
  refine ⟨?_, ?_, ?_, ?_, ?_⟩
  · show (((gm.nodes ++ [n]).map _).map (fun m : GraphNode E => m.id)).Nodup
    rw [hids, List.nodup_append]
    refine ⟨h1, List.nodup_singleton _, ?_⟩
    intro x hx
    rcases List.mem_map.mp hx with ⟨m, hm, hmx⟩
    intro hx2
    have hxeq : x = NodeId.node gm.nodeCounter := List.mem_singleton.mp hx2
    exact hfresh m hm (hmx ▸ hxeq)
  · intro x hx p hp
    rcases List.mem_map.mp hx with ⟨m1, hm1, hxm⟩
    rcases List.mem_append.mp hm1 with hm2 | hm2
    · have hp2 : m1.parentId = some p := by
        rw [← updNode_parentId pid (NodeId.node gm.nodeCounter) m1, hxm]
        exact hp
      obtain ⟨par, hparm2, hid, hd, hc⟩ := h2 m1 hm2 p hp2
      refine ⟨(if (par.id == pid) = true
          then { par with childrenIds := par.childrenIds ++ [NodeId.node gm.nodeCounter] }
          else par), ?_, ?_, ?_, ?_⟩
      · exact List.mem_map_of_mem _ (List.mem_append_left _ hparm2)
      · rw [updNode_id]
        exact hid
      · rw [← hxm, updNode_depth, updNode_depth]
        exact hd
      · rw [← hxm, updNode_id, updNode_children]
        by_cases hpp : par.id = pid
        · rw [if_pos hpp, List.count_append]
          have hone : List.count m1.id [NodeId.node gm.nodeCounter] = 0 := by
            rw [List.count_eq_zero]
            intro hmem
            exact hfresh m1 hm2 (List.mem_singleton.mp hmem)
          rw [hone, hc]
        · rw [if_neg hpp]
          exact hc
    · have hm3 : m1 = n := List.mem_singleton.mp hm2
      subst hm3
      rw [hfn] at hxm
      subst hxm
      have hpeq : p = pid := by
        rw [hnpar] at hp
        exact (Option.some.inj hp).symm
      refine ⟨(if (parent.id == pid) = true
          then { parent with childrenIds := parent.childrenIds ++ [NodeId.node gm.nodeCounter] }
          else parent), ?_, ?_, ?_, ?_⟩
      · exact List.mem_map_of_mem _ (List.mem_append_left _ hparmem)
      · rw [updNode_id, hparid, hpeq]
      · rw [updNode_depth]
        exact hnd
      · rw [updNode_children, if_pos hparid, List.count_append, hnid]
        have hz : parent.childrenIds.count (NodeId.node gm.nodeCounter) = 0 := by
          rw [List.count_eq_zero]
          intro hmem
          obtain ⟨m, hm, hmid⟩ := h3 parent hparmem _ hmem
          exact hfresh m hm hmid
        rw [hz]
        simp
  · intro x hx c hc
    rcases List.mem_map.mp hx with ⟨m1, hm1, hxm⟩
    have hch : x.childrenIds
        = if m1.id = pid then m1.childrenIds ++ [NodeId.node gm.nodeCounter]
          else m1.childrenIds := by
      rw [← hxm, updNode_children]
    rcases List.mem_append.mp hm1 with hm2 | hm2
    · rw [hch] at hc
      by_cases hpp : m1.id = pid
      · rw [if_pos hpp] at hc
        rcases List.mem_append.mp hc with hc2 | hc2
        · obtain ⟨m, hm, hmid⟩ := h3 m1 hm2 c hc2
          refine ⟨(if (m.id == pid) = true
              then { m with childrenIds := m.childrenIds ++ [NodeId.node gm.nodeCounter] }
              else m), ?_, ?_⟩
          · exact List.mem_map_of_mem _ (List.mem_append_left _ hm)
          · rw [updNode_id]
            exact hmid
        · have hceq : c = NodeId.node gm.nodeCounter := List.mem_singleton.mp hc2
          refine ⟨n, ?_, by rw [hnid, hceq]⟩
          exact List.mem_map.mpr
            ⟨n, List.mem_append_right _ (List.mem_singleton_self n), hfn⟩
      · rw [if_neg hpp] at hc
        obtain ⟨m, hm, hmid⟩ := h3 m1 hm2 c hc
        refine ⟨(if (m.id == pid) = true
            then { m with childrenIds := m.childrenIds ++ [NodeId.node gm.nodeCounter] }
            else m), ?_, ?_⟩
        · exact List.mem_map_of_mem _ (List.mem_append_left _ hm)
        · rw [updNode_id]
          exact hmid
    · have hm3 : m1 = n := List.mem_singleton.mp hm2
      subst hm3
      rw [hch, hnid, if_neg hpidne, hnch] at hc
      cases hc
  · intro x hx k hk
    rcases List.mem_map.mp hx with ⟨m1, hm1, hxm⟩
    have hxid : x.id = m1.id := by
      rw [← hxm, updNode_id]
    rcases List.mem_append.mp hm1 with hm2 | hm2
    · have hlt := h4 m1 hm2 k (by rw [← hxid]; exact hk)
      exact lt_trans hlt (Nat.lt_succ_self _)
    · have hm3 : m1 = n := List.mem_singleton.mp hm2
      subst hm3
      rw [hxid, hnid] at hk
      have hkeq : k = gm.nodeCounter := (NodeId.node.inj hk).symm
      subst hkeq
      exact Nat.lt_succ_self _
  · intro x hx t ht
    rcases List.mem_map.mp hx with ⟨m1, hm1, hxm⟩
    have hxid : x.id = m1.id := by
      rw [← hxm, updNode_id]
    rcases List.mem_append.mp hm1 with hm2 | hm2
    · obtain ⟨ha, hb, hcq⟩ := h5 m1 hm2 t (by rw [← hxid]; exact ht)
      refine ⟨?_, ?_, ?_⟩
      · rw [← hxm, updNode_parentId]
        exact ha
      · rw [← hxm, updNode_depth]
        exact hb
      · rw [← hxm, updNode_userId]
        exact hcq
    · have hm3 : m1 = n := List.mem_singleton.mp hm2
      subst hm3
      rw [hxid, hnid] at ht
      cases ht


/-- The initial state satisfies the invariant. -/
theorem graphInv_init {E : Type} (e0 : E) : GraphInv (initialGM e0) := by
  refine ⟨?_, ?_, ?_, ?_, ?_⟩
  · simp [initialGM]
  · intro n hn p hp
    have hn2 := List.mem_singleton.mp hn
    subst hn2
    simp [initialGM] at hp
  · intro n hn c hc
    have hn2 := List.mem_singleton.mp hn
    subst hn2
    simp [initialGM] at hc
  · intro n hn k hk
    have hn2 := List.mem_singleton.mp hn
    subst hn2
    simp [initialGM, globalRootId] at hk
  · intro n hn t ht
    have hn2 := List.mem_singleton.mp hn
    subst hn2
    have hut : none = t := by
      simpa [initialGM, globalRootId] using ht
    subst hut
    exact ⟨rfl, rfl, rfl⟩

/-- Every reachable state satisfies the invariant. -/
theorem graphInv_reachable {E : Type} {e0 : E} {gm : GraphManager E}
    (h : Reachable e0 gm) : GraphInv gm := by
  induction h with
  | refl => exact graphInv_init e0
  | tail _ hstep ih =>
      cases hstep with
      | ensureRoot e1 u => exact graphInv_ensureRoot _ e1 u ih
      | insert gm3 e1 s1 pid1 u1 n1 hok => exact graphInv_insert hok ih

/-- C5 (amended).  In every reachable store state the tree invariant
holds: every non-root node's depth is its parent's depth plus one and its
id occurs exactly once in the parent's `children_ids`; and an insertion
whose `parent_id` does not resolve to any existing node (`get_node`
returns nothing) fails with the `ValueError` and creates no node.
`add_node` checks existence only — not tenant scope — so a parent from
another tenant is accepted (see the counterexample). -/
theorem insert_tree_invariant {E : Type} (e0 : E) (gm : GraphManager E)
    (hre : Reachable e0 gm) :
    (∀ n ∈ gm.nodes, ∀ p, n.parentId = some p →
      ∃ par ∈ gm.nodes, par.id = p ∧ n.depth = par.depth + 1
        ∧ par.childrenIds.count n.id = 1)
    ∧ (∀ (e : E) (s : String) (pid : NodeId) (u : Option String),
        getNode gm pid = none →
        insertNew gm e s pid u = Except.error "Parent does not exist") := by
  refine ⟨(graphInv_reachable hre).2.1, ?_⟩
  intro e s pid u hnone
  unfold insertNew addNode
  rw [hnone]

/-- State with the global root and two tenant roots (each tenant sent a
first chunk). -/
def gmCross : GraphManager ℚ :=
  { nodes := [rootNodeQ none, rootNodeQ (some "t1"), rootNodeQ (some "t2")]
    nodeCounter := 0 }

/-- C5 counterexample: inserting a node for tenant `t1` under tenant
`t2`'s root — a parent that does *not* resolve within `t1`'s tenant
scope — succeeds: `add_node` validates only that the parent id exists
somewhere in the store, so no `InvalidParent` failure occurs. -/
theorem insert_cross_tenant_parent_accepted :
    (rootNodeQ (some "t2")).userId = some "t2"
    ∧ (insertNew gmCross (1 : ℚ) "idea" (NodeId.root (some "t2"))
        (some "t1")).toOption.isSome = true := by
  exact ⟨rfl, by decide⟩

/-- C5 witness: the invariant theorem applied to a concrete reachable
state (global init plus one tenant-root creation), exercising the
failing-insert conjunct. -/
theorem insert_tree_invariant_witness :
    insertNew (getOrCreateRoot (initialGM (0 : ℚ)) 0 (some "t1")).2 1 "idea"
        (NodeId.node 7) (some "t1")
      = Except.error "Parent does not exist" :=
  (insert_tree_invariant 0 _
      (Relation.ReflTransGen.single
        (GraphStep.ensureRoot (initialGM (0 : ℚ)) 0 (some "t1")))).2
    1 "idea" (NodeId.node 7) (some "t1") (by decide)

/-- C8.  Root get-or-create is idempotent per tenant: a second call on
the state produced by the first returns the identical root id and leaves
the state unchanged; the id returned is the tenant's fixed root id; and
in every reachable state there is at most one root per tenant — exactly
one right after the call. -/
theorem root_creation_idempotent {E : Type} (e0 e1 e2 : E) (gm : GraphManager E)
    (u : Option String) (hre : Reachable e0 gm) :
    getOrCreateRoot (getOrCreateRoot gm e1 u).2 e2 u = getOrCreateRoot gm e1 u
    ∧ (getOrCreateRoot gm e1 u).1 = NodeId.root u
    ∧ ((gm.nodes.map (fun n => n.id)).count (NodeId.root u) ≤ 1)
    ∧ (((getOrCreateRoot gm e1 u).2.nodes.map (fun n => n.id)).count
        (NodeId.root u) = 1) := by
  have hnodup := (graphInv_reachable hre).1
  have hle : (gm.nodes.map (fun n => n.id)).count (NodeId.root u) ≤ 1 :=
    List.nodup_iff_count_le_one.mp hnodup _
  rcases getOrCreateRoot_cases gm e1 u with ⟨r, hr, heq⟩ | ⟨hr, heq⟩
  · have hrid : r.id = NodeId.root u := by
      have hgn := getRoot_eq_getNode gm u
      rw [hgn] at hr
      exact (getNode_some hr).2
    have hrmem : r ∈ gm.nodes := by
      have hgn := getRoot_eq_getNode gm u
      rw [hgn] at hr
      exact (getNode_some hr).1
    refine ⟨?_, by rw [heq, hrid], hle, ?_⟩
    · rw [heq]
      show getOrCreateRoot gm e2 u = (r.id, gm)
      simp only [getOrCreateRoot, hr]
    · rw [heq]
      have hmem : NodeId.root u ∈ gm.nodes.map (fun n => n.id) := by
        rw [← hrid]
        exact List.mem_map_of_mem _ hrmem
      have hpos : 0 < (gm.nodes.map (fun n => n.id)).count (NodeId.root u) :=
        List.count_pos_iff.mpr hmem
      exact Nat.le_antisymm hle hpos
  · have hfresh : ∀ m ∈ gm.nodes, m.id ≠ NodeId.root u := by
      have hgn := getRoot_eq_getNode gm u
      rw [hgn] at hr
      exact getNode_none hr
    have hfind : getRoot { gm with nodes := gm.nodes ++ [rootNodeOf e1 u] } u
        = some (rootNodeOf e1 u) := by
      rw [getRoot_eq_getNode]
      exact find?_id_append_self gm.nodes (rootNodeOf e1 u)
        (fun m hm => hfresh m hm)
    refine ⟨?_, by rw [heq], hle, ?_⟩
    · rw [heq]
      show getOrCreateRoot { gm with nodes := gm.nodes ++ [rootNodeOf e1 u] } e2 u
          = (NodeId.root u, { gm with nodes := gm.nodes ++ [rootNodeOf e1 u] })
      simp only [getOrCreateRoot, hfind]
      rfl
    · rw [heq]
      show ((gm.nodes ++ [rootNodeOf e1 u]).map (fun n => n.id)).count
          (NodeId.root u) = 1
      rw [List.map_append, List.count_append]
      have hz : (gm.nodes.map (fun n => n.id)).count (NodeId.root u) = 0 := by
        rw [List.count_eq_zero]
        intro hmem
        rcases List.mem_map.mp hmem with ⟨m, hm, hmx⟩
        exact hfresh m hm hmx
      rw [hz]
      simp [rootNodeOf]

/-- C8 witness: idempotence at a concrete state. -/
theorem root_creation_idempotent_witness :
    getOrCreateRoot (getOrCreateRoot (initialGM (0 : ℚ)) 0 (some "t1")).2 0 (some "t1")
      = getOrCreateRoot (initialGM (0 : ℚ)) 0 (some "t1") :=
  (root_creation_idempotent 0 0 0 (initialGM (0 : ℚ)) (some "t1")
    Relation.ReflTransGen.refl).1

/-! ## Placement decision fallbacks (PRD Step 4, spec §4.4)

The body of `decide_placement` is not quoted in the repository — only its
fallback lines (`part_010` lines 377-387) and the PRD's validation prose
are — so the decision procedure is modelled from the spec's words: treat
the oracle as fallible, validate its `target_node_id` against the
supplied candidates and the resulting parent against the store, and on
any failure fall back to the most-similar candidate's parent, then to the
tenant root.  "Never raises" is modelled by `decidePlacement` being a
total function into `NodeId`: every oracle failure is absorbed. -/

inductive PlacementDecision where
  | continuation
  | branch
  | resolution
deriving DecidableEq

structure OracleResponse where
  decision : PlacementDecision
  targetNodeId : NodeId
deriving DecidableEq

/-- The fallback root (`part_010`): `user_root.id if user_root else
self.graph_manager.root_id`. -/
def fallbackRootId {E : Type} (gm : GraphManager E) (u : Option String) : NodeId :=
  match u with
  | none => globalRootId
  | some _ =>
      match getRoot gm u with
      | some r => r.id
      | none => globalRootId

/-- Modelled from the spec: the fallback chain of §4.4 step 3 — the
most-similar candidate's parent when it resolves, else the tenant
root. -/
def fallbackParent {E : Type} (gm : GraphManager E)
    (similar : List (NodeId × ℚ × GraphNode E)) (u : Option String) : NodeId :=
  match similar with
  | [] => fallbackRootId gm u
  | ms :: _ =>
      match ms.2.2.parentId with
      | some p => if (getNode gm p).isSome then p else fallbackRootId gm u
      | none => fallbackRootId gm u

/-- Modelled from the spec: `decide_placement` (§4.4; body absent from
src).  Empty candidates → tenant root; oracle failure or a target outside
the candidate set → fallback; otherwise continuation/resolution make the
target the parent and branch makes the target's parent the parent, the
result still being validated against the store. -/
def decidePlacement {E : Type} (gm : GraphManager E)
    (similar : List (NodeId × ℚ × GraphNode E))
    (oracle : Except String OracleResponse) (u : Option String) : NodeId :=
  match similar with
  | [] => fallbackRootId gm u
  | _ :: _ =>
      match oracle with
      | Except.error _ => fallbackParent gm similar u
      | Except.ok r =>
          match similar.find? (fun p => p.1 == r.targetNodeId) with
          | none => fallbackParent gm similar u
          | some tp =>
              let pid :=
                match r.decision with
                | PlacementDecision.continuation => r.targetNodeId
                | PlacementDecision.resolution => r.targetNodeId
                | PlacementDecision.branch =>
                    match tp.2.2.parentId with
                    | some q => q
                    | none => fallbackRootId gm u
              if (getNode gm pid).isSome then pid
              else fallbackParent gm similar u

/-- The failure condition of C6: the oracle call failed outright, or it
answered with a `target_node_id` that is not among the supplied
candidates. -/
def OracleFailsOrInvalid {E : Type} (oracle : Except String OracleResponse)
    (similar : List (NodeId × ℚ × GraphNode E)) : Prop :=
  match oracle with
  | Except.error _ => True
  | Except.ok r => ∀ p ∈ similar, p.1 ≠ r.targetNodeId

/-- C6.  Whenever the oracle fails or names a target outside the
candidate set, `decide` returns the most-similar (first) candidate's
parent when that parent resolves in the store, and the tenant root
otherwise; in particular the result is always either that parent or a
root id, and no failure escapes (the function is total). -/
theorem decide_fallback_spec {E : Type} (gm : GraphManager E)
    (similar : List (NodeId × ℚ × GraphNode E))
    (oracle : Except String OracleResponse) (u : Option String)
    (ms : NodeId × ℚ × GraphNode E) (rest : List (NodeId × ℚ × GraphNode E))
    (hsim : similar = ms :: rest)
    (hfail : OracleFailsOrInvalid oracle similar) :
    decidePlacement gm similar oracle u
      = (match ms.2.2.parentId with
         | some p => if (getNode gm p).isSome then p else fallbackRootId gm u
         | none => fallbackRootId gm u)
    ∧ (decidePlacement gm similar oracle u = fallbackRootId gm u
        ∨ ∃ p, ms.2.2.parentId = some p
            ∧ (getNode gm p).isSome ∧ decidePlacement gm similar oracle u = p) := by
  subst hsim
  have h1 : decidePlacement gm (ms :: rest) oracle u
      = fallbackParent gm (ms :: rest) u := by
    cases oracle with
    | error msg => rfl
    | ok r =>
        have hfind : (ms :: rest).find? (fun p => p.1 == r.targetNodeId) = none := by
          rw [List.find?_eq_none]
          intro p hp
          simpa using hfail p hp
        simp only [decidePlacement, hfind]
  have h2 : fallbackParent gm (ms :: rest) u
      = (match ms.2.2.parentId with
         | some p => if (getNode gm p).isSome then p else fallbackRootId gm u
         | none => fallbackRootId gm u) := rfl
  refine ⟨h1.trans h2, ?_⟩
  rw [h1, h2]
  cases hpp : ms.2.2.parentId with
  | none => exact Or.inl rfl
  | some p =>
      by_cases hg : (getNode gm p).isSome
      · refine Or.inr ⟨p, rfl, hg, ?_⟩
        show (if (getNode gm p).isSome = true then p else fallbackRootId gm u) = p
        rw [if_pos hg]
      · refine Or.inl ?_
        show (if (getNode gm p).isSome = true then p else fallbackRootId gm u)
            = fallbackRootId gm u
        rw [if_neg hg]

/-- C6 witness: oracle timeout with one candidate whose parent is the
tenant root; `decide` returns that parent. -/
theorem decide_fallback_spec_witness :
    decidePlacement gmTenantNode [(NodeId.node 0, 1, ideaNodeT1)]
        (Except.error "timeout") (some "t1")
      = NodeId.root (some "t1") := by
  have h := (decide_fallback_spec gmTenantNode
      [(NodeId.node 0, 1, ideaNodeT1)] (Except.error "timeout") (some "t1")
      (NodeId.node 0, 1, ideaNodeT1) [] rfl trivial).1
  rw [h]
  decide

/-! ## Frontend diff conversion (PRD Step 6, `part_010` fixed version) -/

structure EdgeData where
  fromNode : NodeId
  toNode : NodeId
  edgeType : String
deriving DecidableEq

/-- `is_root_parent` from the fixed `_graph_to_frontend_format`
(`part_010` lines 355-362): the parent is the global `root_id`, or —
when the chunk carries a tenant — that tenant's `root_{user_id}`. -/
def isRootParent (u : Option String) (pid : NodeId) : Bool :=
  pid == globalRootId
    || (match u with
        | some t => pid == NodeId.root (some t)
        | none => false)

/-- Edge creation (PRD Step 6, with `part_010`'s fixed edge-type
detection): for each new node with a parent, an edge from the parent of
type `"root"` when `is_root_parent`, else `"extends"`. -/
def graphToFrontendEdges {E : Type} (u : Option String)
    (newNodes : List (GraphNode E)) : List EdgeData :=
  newNodes.filterMap (fun n =>
    match n.parentId with
    | some p =>
        some { fromNode := p
               toNode := n.id
               edgeType := if isRootParent u p then "root" else "extends" }
    | none => none)

theorem isRootParent_iff (u : Option String) (pid : NodeId) :
    isRootParent u pid = true
      ↔ (pid = globalRootId ∨ ∃ t, u = some t ∧ pid = NodeId.root (some t)) := by
  unfold isRootParent
  cases u with
  | none => simp
  | some t => simp [beq_iff_eq]

/-- C10.  In every emitted diff, an edge carries type `"root"` exactly
when its from-node is the tenant's root (the global root id, or
`root_{tenant}` for the chunk's tenant); every other parent-to-child edge
carries `"extends"`. -/
theorem edge_type_root_iff {E : Type} (u : Option String)
    (newNodes : List (GraphNode E)) (ed : EdgeData)
    (hed : ed ∈ graphToFrontendEdges u newNodes) :
    (ed.edgeType = "root"
      ↔ (ed.fromNode = globalRootId
          ∨ ∃ t, u = some t ∧ ed.fromNode = NodeId.root (some t)))
    ∧ (ed.edgeType = "root" ∨ ed.edgeType = "extends") := by
  rcases List.mem_filterMap.mp hed with ⟨n, _, hmk⟩
  cases hpp : n.parentId with
  | none =>
      rw [hpp] at hmk
      cases hmk
  | some p =>
      rw [hpp] at hmk
      have hed2 : ed = { fromNode := p
                         toNode := n.id
                         edgeType := if isRootParent u p then "root" else "extends" } :=
        (Option.some.inj hmk).symm
      subst hed2
      by_cases hrp : isRootParent u p = true
      · refine ⟨?_, Or.inl (by simp [hrp])⟩
        simp only [hrp, if_true]
        exact ⟨fun _ => (isRootParent_iff u p).mp hrp, fun _ => trivial⟩
      · have hrpf : isRootParent u p = false := Bool.eq_false_iff.mpr hrp
        refine ⟨?_, Or.inr (by simp [hrpf])⟩
        simp only [hrpf, Bool.false_eq_true, if_false]
        constructor
        · intro hcontra
          exact absurd hcontra (by decide)
        · intro hdisj
          exact absurd ((isRootParent_iff u p).mpr hdisj) hrp

/-- C10 witness: the edge emitted for a node whose parent is the
tenant's root carries type `"root"` and satisfies the characterization. -/
theorem edge_type_root_iff_witness :
    ({ fromNode := NodeId.root (some "t1")
       toNode := NodeId.node 0
       edgeType := "root" } : EdgeData).edgeType = "root"
      ↔ (({ fromNode := NodeId.root (some "t1")
            toNode := NodeId.node 0
            edgeType := "root" } : EdgeData).fromNode = globalRootId
          ∨ ∃ t, (some "t1" : Option String) = some t
              ∧ ({ fromNode := NodeId.root (some "t1")
                   toNode := NodeId.node 0
                   edgeType := "root" } : EdgeData).fromNode
                  = NodeId.root (some t)) :=
  (edge_type_root_iff (some "t1") [ideaNodeT1] _ (by decide)).1

/-! ## Per-chunk ingestion (spec §4.5, PRD §3.1.5 / §7.1)

The pipeline body (`MeetMapService.extract_nodes`) is not quoted in the
repository; it is modelled from the spec and the PRD's error tables:
extraction failure → idea list treated as empty; per-idea embedding
failure → that idea alone is skipped; per idea, rank against the live
store, decide the parent (root path creating the tenant root when no
candidates exist), insert, cluster, and collect the produced nodes. -/

structure PipeState (E : Type) where
  gm : GraphManager E
  clusters : ClusterState E
  newNodes : List (GraphNode E)

/-- Modelled from the spec: one idea's placement, insertion and
clustering (§4.5 step 2b-2e; an `InvalidParent` failure is log + skip for
that idea alone, §7). -/
def processIdea {E : Type} [AddCommGroup E] [Module ℚ E] (sim : E → E → ℚ)
    (oracle : String → Except String OracleResponse) (u : Option String)
    (st : PipeState E) (idea : String) (e : E) : PipeState E :=
  let similar := rank sim st.gm e u
  if similar.isEmpty then
    let rgm := getOrCreateRoot st.gm e u
    match insertNew rgm.2 e idea rgm.1 u with
    | Except.error _ => st
    | Except.ok (gm2, n) =>
        { gm := gm2
          clusters := (assignCluster sim st.clusters n.id e).2
          newNodes := st.newNodes ++ [n] }
  else
    let pid := decidePlacement st.gm similar (oracle idea) u
    match insertNew st.gm e idea pid u with
    | Except.error _ => st
    | Except.ok (gm2, n) =>
        { gm := gm2
          clusters := (assignCluster sim st.clusters n.id e).2
          newNodes := st.newNodes ++ [n] }

/-- Modelled from the spec: one idea of the chunk — a failed embedding
skips the idea (PRD §7.1 "Embedding model error → Exception logged →
Skip node"), a successful one is processed. -/
def processStep {E : Type} [AddCommGroup E] [Module ℚ E] (sim : E → E → ℚ)
    (embed : String → Except String E)
    (oracle : String → Except String OracleResponse) (u : Option String)
    (st : PipeState E) (idea : String) : PipeState E :=
  match embed idea with
  | Except.error _ => st
  | Except.ok e => processIdea sim oracle u st idea e

/-- Modelled from the spec: `process(chunk)` — a failed extraction yields
the empty idea list (PRD §3.1.5 "API failure → Return empty list"), then
the ideas are processed in order against the live state. -/
def processChunk {E : Type} [AddCommGroup E] [Module ℚ E] (sim : E → E → ℚ)
    (extract : Except String (List String))
    (embed : String → Except String E)
    (oracle : String → Except String OracleResponse) (u : Option String)
    (st0 : PipeState E) : PipeState E :=
  let ideas :=
    match extract with
    | Except.error _ => []
    | Except.ok l => l
  ideas.foldl (processStep sim embed oracle u) st0

/-- C9.  `process` never propagates a partial failure: it is a total
function (no exception escapes, by construction of the model); a failed
extraction produces exactly the input state — no nodes, no edges, no
error; and a per-idea embedding failure skips only that idea — the chunk
produces precisely the result of processing the successfully-embedded
ideas, in order, so the caller always receives whatever nodes could be
legitimately produced. -/
theorem process_never_propagates {E : Type} [AddCommGroup E] [Module ℚ E]
    (sim : E → E → ℚ) (embed : String → Except String E)
    (oracle : String → Except String OracleResponse) (u : Option String)
    (st0 : PipeState E) :
    (∀ msg, processChunk sim (Except.error msg) embed oracle u st0 = st0)
    ∧ (∀ ideas, processChunk sim (Except.ok ideas) embed oracle u st0
        = processChunk sim
            (Except.ok (ideas.filter (fun i => (embed i).isOk)))
            embed oracle u st0) := by
  constructor
  · intro msg
    rfl
  · intro ideas
    show ideas.foldl (processStep sim embed oracle u) st0
        = (ideas.filter (fun i => (embed i).isOk)).foldl
            (processStep sim embed oracle u) st0
    induction ideas generalizing st0 with
    | nil => rfl
    | cons i rest ih =>
        rw [List.foldl_cons, List.filter_cons]
        by_cases hok : (embed i).isOk = true
        · rw [if_pos hok, List.foldl_cons]
          exact ih _
        · rw [if_neg hok]
          have hskip : processStep sim embed oracle u st0 i = st0 := by
            unfold processStep
            cases hemb : embed i with
            | error msg => rfl
            | ok e =>
                rw [hemb] at hok
                exact absurd rfl hok
          rw [hskip]
          exact ih st0

end MeetMap
